import Mathlib

/-!
# A verification development for the `pyvrs` index/filter/search engine

This file gives a shallow embedding, in Lean 4, of the Python layer of the
VRS reader (`pyvrs/reader.py`, `pyvrs/filter.py`, `pyvrs/slice.py`,
`pyvrs/utils.py`) and proves properties of the filtering, time-search,
windowing and metadata-key logic.

Conventions of the embedding:
* Python exceptions are modelled with `Except PyError` (or `Option` when a
  function only ever "raises or returns").
* Python `dict`s are modelled as insertion-ordered association lists.
* Python `set`s are modelled as lists used only through membership.
* Timestamps (`float` in the source) are modelled as rationals `ℚ`.
* The underlying C++ record store (the pybind `Reader` object held in
  `self._reader`) is not part of the Python sources; every store primitive
  is modelled from the specification and marked `Modelled from the spec:`
  in its doc comment.
-/

set_option autoImplicit false

namespace PyVRS

/-- The Python exception classes that the embedded code can raise. -/
inductive PyError where
  | indexError
  | keyError
  | attributeError
  | notImplementedError
  | valueError
  | timestampNotFoundError
  | assertionError
deriving DecidableEq

/-- Python list indexing `l[i]` for an integer index: negative indices count
from the end, and an index out of range raises `IndexError` (modelled as
`none`). -/
def pyListGet {α : Type} (l : List α) (i : Int) : Option α :=
  let j : Int := if i < 0 then i + l.length else i
  if 0 ≤ j then l.get? j.toNat else none

/-- Clamping of one bound of a Python slice `l[a:b]` (step 1) to `[0, len]`:
negative bounds count from the end, then both bounds clamp into range. -/
def pySliceIdx (len : Nat) (v : Int) : Nat :=
  if v < 0 then (v + len).toNat else min v.toNat len

/-- Python list slicing `l[a:b]` (default step 1) with Python-style clamping
of out-of-range bounds. -/
def pySlice {α : Type} (l : List α) (a b : Int) : List α :=
  let s := pySliceIdx l.length a
  let e := pySliceIdx l.length b
  (l.drop s).take (e - s)

/-- Truthiness of an optional float, as used by `if epsilon:` in the source:
`None` and `0.0` are falsy. -/
def pyTruthy (e : Option ℚ) : Bool :=
  match e with
  | none => false
  | some v => v ≠ 0

/-! ## Data model

One record of the global, timestamp-ordered catalog. The catalog itself is
the full index of an open file: a list of records in absolute-index order. -/

/-- The facts the store exposes about one indexed record. -/
structure SourceRecord where
  streamId : String
  recordType : String
  timestamp : ℚ
deriving DecidableEq

/-- The full index of an open VRS file, in absolute-index order. -/
abbrev Catalog := List SourceRecord

/-! ## Glob matching (`fnmatch`)

`fnmatch` is external (Python stdlib); the spec describes the matching used
for stream ids as "glob-style wildcard matching (`*`, `?`)". -/

/-- Fuel-bounded core of glob matching: the second argument is the pattern
(`*` matches any sequence of characters, `?` any single character, anything
else itself), the third the candidate string. Every recursive call shrinks
the pattern or the string, so `pattern.length + string.length + 1` units of
fuel always suffice. -/
def globMatchFuel : Nat → List Char → List Char → Bool
  | 0, _, _ => false
  | _ + 1, [], s => s.isEmpty
  | fuel + 1, c :: p, s =>
    if c = '*' then
      globMatchFuel fuel p s ||
        (match s with
         | [] => false
         | _ :: s' => globMatchFuel fuel (c :: p) s')
    else
      match s with
      | [] => false
      | a :: s' => (c = '?' || a = c) && globMatchFuel fuel p s'

/-- Modelled from the spec: glob-style wildcard matching of a candidate
string against a pattern with `*` and `?` wildcards. -/
def globMatch (p s : List Char) : Bool :=
  globMatchFuel (2 * (p.length + s.length) + 1) p s

/-- Modelled from the spec: `fnmatch(name, pattern)` tests `name` against a
glob-style `pattern` using `*` and `?` wildcards. -/
def fnmatch (name pat : String) : Bool :=
  globMatch pat.data name.data

/-! ## `pyvrs/utils.py`: set filtering -/

/-- `_filter_set_on_condition` from `utils.py`: keep every element of `s`
for which some item in `items` satisfies the comparator. -/
def filter_set_on_condition {α : Type} (s : List α) (items : List α)
    (cond_func : α → α → Bool) : List α :=
  s.filter (fun a => items.any (fun b => cond_func a b))

/-- `filter_by_stream_ids` from `utils.py`: restrict the available stream
ids to those matched by one of the glob patterns. -/
def filter_by_stream_ids (available_stream_ids : List String)
    (regex_stream_ids : List String) : List String :=
  filter_set_on_condition available_stream_ids regex_stream_ids fnmatch

/-- `filter_by_record_type` from `utils.py`: restrict the available record
types to those equal to one of the requested types (exact matches only). -/
def filter_by_record_type (available_record_types : List String)
    (requested_record_types : List String) : List String :=
  filter_set_on_condition available_record_types requested_record_types
    (fun a b => a = b)

/-! ## The record store

The pybind `Reader` object is C++ code that is not part of the Python
sources; its primitives are modelled from the spec (§4.1–§4.5, §6). -/

/-- Does the record at absolute index `j` match the stream id and record
type? -/
def record_matches (c : Catalog) (j : Nat) (stream_id record_type : String) :
    Bool :=
  match c.get? j with
  | some r => r.streamId = stream_id && r.recordType = record_type
  | none => false

/-- Modelled from the spec: the store enumerates the available record
types. -/
def get_available_record_types (c : Catalog) : List String :=
  (c.map (·.recordType)).dedup

/-- Modelled from the spec: the store enumerates the available stream
ids. -/
def get_available_stream_ids (c : Catalog) : List String :=
  (c.map (·.streamId)).dedup

/-- Modelled from the spec: the store reports the minimum available
timestamp (0 for an empty file). -/
def get_min_available_timestamp (c : Catalog) : ℚ :=
  match c with
  | [] => 0
  | r :: rs => rs.foldl (fun m x => min m x.timestamp) r.timestamp

/-- Modelled from the spec: the store reports the maximum available
timestamp (0 for an empty file). -/
def get_max_available_timestamp (c : Catalog) : ℚ :=
  match c with
  | [] => 0
  | r :: rs => rs.foldl (fun m x => max m x.timestamp) r.timestamp

/-- Modelled from the spec (§4.1): the store returns the timestamp of an
absolute index in `[0, count)` and fails with OutOfRange (`IndexError`)
otherwise. -/
def store_get_timestamp_for_index (c : Catalog) (i : Int) :
    Except PyError ℚ :=
  if 0 ≤ i then
    match c.get? i.toNat with
    | some r => .ok r.timestamp
    | none => .error .indexError
  else .error .indexError

/-- Modelled from the spec: the store reads one decoded record by absolute
index; the materialized record carries its absolute index
(`record_index`). -/
def read_record (c : Catalog) (i : Nat) : Except PyError (Nat × SourceRecord) :=
  match c.get? i with
  | some r => .ok (i, r)
  | none => .error .indexError

/-- Modelled from the spec (§4.2): `regenerate_enabled_indices` derives the
ascending list of absolute indices whose record satisfies the type, stream
and inclusive timestamp criteria. -/
def regenerate_enabled_indices (c : Catalog) (record_types : List String)
    (stream_ids : List String) (min_timestamp max_timestamp : ℚ) : List Nat :=
  (List.range c.length).filter (fun i =>
    match c.get? i with
    | some r =>
        record_types.contains r.recordType && stream_ids.contains r.streamId
          && decide (min_timestamp ≤ r.timestamp)
          && decide (r.timestamp ≤ max_timestamp)
    | none => false)

/-- Modelled from the spec (§4.3, lower bound): the smallest absolute index
on the stream whose timestamp is ≥ the target; fails with `ValueError` (the
error the Python layer documents for this search) when no such index
exists. -/
def store_get_record_index_by_time (c : Catalog) (stream_id : String)
    (timestamp : ℚ) : Except PyError Nat :=
  match ((List.range c.length).filter (fun i =>
      match c.get? i with
      | some r => r.streamId = stream_id && decide (timestamp ≤ r.timestamp)
      | none => false)).head? with
  | some i => .ok i
  | none => .error .valueError

/-- Modelled from the spec (§4.3, epsilon search): among indices on the
stream whose timestamp is strictly within `epsilon` of the target (the
boundary is treated as exclusive, per §9), the one with minimal distance,
ties broken by the smaller absolute index; fails with
`TimestampNotFoundError` when the window is empty. -/
def store_get_nearest_record_index_by_time (c : Catalog) (timestamp : ℚ)
    (epsilon : ℚ) (stream_id : String) : Except PyError Nat :=
  let dist := fun (i : Nat) =>
    match c.get? i with
    | some r => |r.timestamp - timestamp|
    | none => 0
  match (List.range c.length).filter (fun i =>
      match c.get? i with
      | some r => r.streamId = stream_id && decide (|r.timestamp - timestamp| < epsilon)
      | none => false) with
  | [] => .error .timestampNotFoundError
  | i :: is => .ok (is.foldl (fun best j => if dist j < dist best then j else best) i)

/-- Modelled from the spec (§4.5): the largest absolute index `j ≤ index`
matching the stream id and record type; the store signals absence with
`IndexError`. -/
def store_get_prev_index (c : Catalog) (stream_id record_type : String)
    (index : Int) : Except PyError Nat :=
  match ((List.range c.length).filter (fun (j : Nat) =>
      decide ((j : Int) ≤ index) && record_matches c j stream_id record_type)).getLast? with
  | some j => .ok j
  | none => .error .indexError

/-- Modelled from the spec (§4.5): the smallest absolute index `j ≥ index`
matching the stream id and record type; the store signals absence with
`IndexError`. -/
def store_get_next_index (c : Catalog) (stream_id record_type : String)
    (index : Int) : Except PyError Nat :=
  match ((List.range c.length).filter (fun (j : Nat) =>
      decide (index ≤ (j : Int)) && record_matches c j stream_id record_type)).head? with
  | some j => .ok j
  | none => .error .indexError

/-! ## `bisect.bisect` (Python stdlib)

`bisect.bisect` is `bisect_right`: a binary search returning the insertion
point to the right of any existing entries. Modelled from the Python stdlib
source: `lo, hi = 0, len(a)`; while `lo < hi`, if `x < a[mid]` then
`hi = mid` else `lo = mid + 1`; return `lo`. The loop is bounded by
`hi - lo`, so `hi - lo` units of fuel always suffice. -/

/-- Fuel-bounded core of `bisect_right`'s binary-search loop. -/
def bisect_right_loop (a : List Nat) (x : Nat) : Nat → Nat → Nat → Nat
  | _, lo, 0 => lo
  | hi, lo, fuel + 1 =>
    if lo < hi then
      let mid := (lo + hi) / 2
      if x < a.getD mid 0 then bisect_right_loop a x mid lo fuel
      else bisect_right_loop a x hi (mid + 1) fuel
    else lo

/-- `bisect.bisect(a, x)` (= `bisect_right`) from the Python stdlib. -/
def bisect (a : List Nat) (x : Nat) : Nat :=
  bisect_right_loop a x a.length 0 a.length

/-! ## `pyvrs/reader.py`: the unfiltered reader

The reader is determined by the catalog of the open file; the values its
`__init__` snapshots (`_n_records`, `_record_types`, `_stream_ids`,
`_min_timestamp`, `_max_timestamp`) are the corresponding store queries. -/

namespace VRSReader

/-- `self._n_records`. -/
def n_records (c : Catalog) : Nat := c.length

/-- `self._record_types`. -/
def record_types (c : Catalog) : List String := get_available_record_types c

/-- `self._stream_ids`. -/
def stream_ids (c : Catalog) : List String := get_available_stream_ids c

/-- `self._min_timestamp`. -/
def min_timestamp (c : Catalog) : ℚ := get_min_available_timestamp c

/-- `self._max_timestamp`. -/
def max_timestamp (c : Catalog) : ℚ := get_max_available_timestamp c

/-- `VRSReader.get_timestamp_for_index`: guard `index >= self.n_records`
with `IndexError`, then ask the store. -/
def get_timestamp_for_index (c : Catalog) (index : Int) : Except PyError ℚ :=
  if (n_records c : Int) ≤ index then .error .indexError
  else store_get_timestamp_for_index c index

/-- `VRSReader.get_record_index_by_time`: assert the stream id is
available, then dispatch on the truthiness of `epsilon` to the nearest or
lower-bound store search. -/
def get_record_index_by_time (c : Catalog) (stream_id : String)
    (timestamp : ℚ) (epsilon : Option ℚ) : Except PyError Nat :=
  if stream_id ∈ stream_ids c then
    match epsilon with
    | some e =>
        if e ≠ 0 then store_get_nearest_record_index_by_time c timestamp e stream_id
        else store_get_record_index_by_time c stream_id timestamp
    | none => store_get_record_index_by_time c stream_id timestamp
  else .error .assertionError

/-- `VRSReader.read_prev_record`: ask the store for the previous matching
index, converting its `IndexError` into `None`, then read that record. -/
def read_prev_record (c : Catalog) (stream_id record_type : String)
    (index : Int) : Except PyError (Option (Nat × SourceRecord)) :=
  match store_get_prev_index c stream_id record_type index with
  | .error .indexError => .ok none
  | .error e => .error e
  | .ok j =>
    match read_record c j with
    | .ok r => .ok (some r)
    | .error e => .error e

/-- `VRSReader.read_next_record`: ask the store for the next matching
index, converting its `IndexError` into `None`, then read that record. -/
def read_next_record (c : Catalog) (stream_id record_type : String)
    (index : Int) : Except PyError (Option (Nat × SourceRecord)) :=
  match store_get_next_index c stream_id record_type index with
  | .error .indexError => .ok none
  | .error e => .error e
  | .ok j =>
    match read_record c j with
    | .ok r => .ok (some r)
    | .error e => .error e

end VRSReader

/-! ## `pyvrs/filter.py`: the record filter and the filtered reader -/

/-- `RecordFilter` from `filter.py`. -/
structure RecordFilter where
  record_types : List String
  stream_ids : List String
  min_timestamp : ℚ
  max_timestamp : ℚ
deriving DecidableEq

/-- `SyncVRSReader.filtered_by_fields`: apply the documented defaults for
every omitted dimension, then resolve the requested record types by exact
match and the requested stream ids by glob match against the available
sets. -/
def filtered_by_fields (c : Catalog) (stream_ids : Option (List String))
    (record_types : Option (List String))
    (min_timestamp max_timestamp : Option ℚ) : RecordFilter :=
  let stream_ids := stream_ids.getD (VRSReader.stream_ids c)
  let record_types := record_types.getD (VRSReader.record_types c)
  let min_timestamp := min_timestamp.getD (VRSReader.min_timestamp c)
  let max_timestamp := max_timestamp.getD (VRSReader.max_timestamp c)
  { record_types := filter_by_record_type (VRSReader.record_types c) record_types
    stream_ids := filter_by_stream_ids (VRSReader.stream_ids c) stream_ids
    min_timestamp := min_timestamp
    max_timestamp := max_timestamp }

/-- A filtered view: the base reader (its catalog) plus the filter handed
to `FilteredVRSReader.__init__`. -/
structure FilteredVRSReader where
  reader : Catalog
  record_filter : RecordFilter
deriving DecidableEq

namespace FilteredVRSReader

/-- `self._filtered_indices`, via
`VRSReader._generate_filtered_indices`, which forwards the filter fields to
the store's `regenerate_enabled_indices`. -/
def filtered_indices (fr : FilteredVRSReader) : List Nat :=
  regenerate_enabled_indices fr.reader fr.record_filter.record_types
    fr.record_filter.stream_ids fr.record_filter.min_timestamp
    fr.record_filter.max_timestamp

/-- `self._min_timestamp` as computed by `FilteredVRSReader.__init__`:
0 when the filtered index list is empty, otherwise the base reader's
timestamp of its first index (exceptions would propagate out of
`__init__`). -/
def min_timestamp (fr : FilteredVRSReader) : Except PyError ℚ :=
  match fr.filtered_indices with
  | [] => .ok 0
  | i :: _ => VRSReader.get_timestamp_for_index fr.reader i

/-- `self._max_timestamp` as computed by `FilteredVRSReader.__init__`:
0 when the filtered index list is empty, otherwise the base reader's
timestamp of its last index (`self._filtered_indices[-1]`). -/
def max_timestamp (fr : FilteredVRSReader) : Except PyError ℚ :=
  match fr.filtered_indices.getLast? with
  | none => .ok 0
  | some i => VRSReader.get_timestamp_for_index fr.reader i

/-- `FilteredVRSReader.stream_ids`: the filter's resolved stream-id set. -/
def stream_ids (fr : FilteredVRSReader) : List String :=
  fr.record_filter.stream_ids

/-- `FilteredVRSReader.get_timestamp_for_index`: guard
`index >= len(self._filtered_indices)` with `IndexError`, then look up the
absolute index with Python list indexing (negative indices allowed, out of
range raises) and ask the base reader. -/
def get_timestamp_for_index (fr : FilteredVRSReader) (index : Int) :
    Except PyError ℚ :=
  if (fr.filtered_indices.length : Int) ≤ index then .error .indexError
  else
    match pyListGet fr.filtered_indices index with
    | none => .error .indexError
    | some i => VRSReader.get_timestamp_for_index fr.reader i

/-- `FilteredVRSReader.get_record_index_by_time`: assert the stream id is in
the filter's resolved set, run the base reader's full-catalog search, and
remap its result with `max(bisect(self._filtered_indices, index) - 1, 0)`. -/
def get_record_index_by_time (fr : FilteredVRSReader) (stream_id : String)
    (timestamp : ℚ) (epsilon : Option ℚ) : Except PyError Nat :=
  if stream_id ∈ fr.stream_ids then
    match VRSReader.get_record_index_by_time fr.reader stream_id timestamp epsilon with
    | .ok index => .ok (max ((bisect fr.filtered_indices index : Int) - 1) 0).toNat
    | .error e => .error e
  else .error .assertionError

/-- `FilteredVRSReader.read_prev_record`: look up
`self._filtered_indices[index]` (an uncaught `IndexError` propagates) and
delegate to the base reader. -/
def read_prev_record (fr : FilteredVRSReader) (stream_id record_type : String)
    (index : Int) : Except PyError (Option (Nat × SourceRecord)) :=
  match pyListGet fr.filtered_indices index with
  | none => .error .indexError
  | some index_in_all =>
      VRSReader.read_prev_record fr.reader stream_id record_type index_in_all

/-- `FilteredVRSReader.read_next_record`: look up
`self._filtered_indices[index]`, catching `IndexError` as `None`, and
delegate to the base reader. -/
def read_next_record (fr : FilteredVRSReader) (stream_id record_type : String)
    (index : Int) : Except PyError (Option (Nat × SourceRecord)) :=
  match pyListGet fr.filtered_indices index with
  | none => .ok none
  | some index_in_all =>
      VRSReader.read_next_record fr.reader stream_id record_type index_in_all

/-- `FilteredVRSReader.set_image_conversion` raises
`NotImplementedError`. -/
def set_image_conversion (_fr : FilteredVRSReader) : Except PyError Unit :=
  .error .notImplementedError

/-- `FilteredVRSReader.set_stream_image_conversion` raises
`NotImplementedError`. -/
def set_stream_image_conversion (_fr : FilteredVRSReader)
    (_stream_id : String) : Except PyError Unit :=
  .error .notImplementedError

/-- `FilteredVRSReader.set_stream_type_image_conversion` raises
`NotImplementedError`. -/
def set_stream_type_image_conversion (_fr : FilteredVRSReader)
    (_recordable_type_id : String) : Except PyError Nat :=
  .error .notImplementedError

end FilteredVRSReader

/-- The attributes (methods and properties) defined on `FilteredVRSReader`
and its base class `BaseVRSReader` in `filter.py` / `base.py`; Python
resolves `fr.<name>` against this table and raises `AttributeError` when the
name is absent. -/
def filtered_vrs_reader_attributes : List String :=
  ["file_tags", "stream_tags", "n_records", "record_types", "stream_ids",
   "min_timestamp", "max_timestamp", "time_range", "min_filter_timestamp",
   "max_filter_timestamp", "find_stream", "find_streams", "get_stream_info",
   "get_records_count", "get_timestamp_list", "get_timestamp_for_index",
   "set_image_conversion", "set_stream_image_conversion",
   "set_stream_type_image_conversion", "might_contain_images",
   "might_contain_audio", "get_estimated_frame_rate",
   "get_record_index_by_time", "read_record_by_time", "read_prev_record",
   "read_next_record"]

/-- The first step of the Python call `fr.filtered_by_fields(...)` on a
filtered view: attribute lookup. No class in the filtered view's method
resolution order defines `filtered_by_fields`, so the lookup itself fails
with `AttributeError`; were the attribute present, the call would proceed
to whatever that method does. -/
def attempt_refilter (_fr : FilteredVRSReader) : Except PyError Unit :=
  if "filtered_by_fields" ∈ filtered_vrs_reader_attributes then .ok ()
  else .error .attributeError

/-! ## `pyvrs/slice.py`: indexing and slicing -/

/-- The argument of `__getitem__`: an integer index or a (default-step)
slice `a:b`. -/
inductive PyIndex where
  | int (i : Int)
  | slice (a b : Int)

/-- The result of `index_or_slice_records`: a materialized record, or a
`VRSReaderSlice` (which is determined by its index list). -/
inductive IndexOrSliceResult where
  | record (r : Nat × SourceRecord)
  | readerSlice (indices : List Nat)
deriving DecidableEq

/-- `index_or_slice_records` from `slice.py`: on an integer index, read the
record at the absolute index `vrs_indices[i]` (Python list indexing,
negative indices allowed, `IndexError` out of range); on a slice, build a
new `VRSReaderSlice` over `vrs_indices[a:b]` without reading anything. -/
def index_or_slice_records (c : Catalog) (vrs_indices : List Nat)
    (i : PyIndex) : Except PyError IndexOrSliceResult :=
  match i with
  | .int j =>
    match pyListGet vrs_indices j with
    | none => .error .indexError
    | some abs_index =>
      match read_record c abs_index with
      | .ok r => .ok (.record r)
      | .error e => .error e
  | .slice a b => .ok (.readerSlice (pySlice vrs_indices a b))

/-! ## Python dicts as insertion-ordered association lists

`stringify_metadata_keys` manipulates Python dicts; these helpers model the
dict operations it uses (`in`, `[...] = ...`, `.pop`), preserving insertion
order exactly as CPython does. -/

section Dict

variable {V : Type}

/-- The keys of a dict, in insertion order. -/
def dict_keys (d : List (String × V)) : List String := d.map Prod.fst

/-- `k in d`. -/
def dict_contains (d : List (String × V)) (k : String) : Bool :=
  d.any (fun p => p.1 = k)

/-- `d.get(k)`: the value stored under `k`, if any. -/
def dict_find (d : List (String × V)) (k : String) : Option V :=
  (d.find? (fun p => p.1 = k)).map Prod.snd

/-- `d.pop(k)`: the value stored under `k` together with the dict with that
entry removed; `none` models the `KeyError` raised when `k` is absent. -/
def dict_pop : List (String × V) → String → Option (V × List (String × V))
  | [], _ => none
  | (k', v) :: rest, k =>
    if k' = k then some (v, rest)
    else (dict_pop rest k).map (fun p => (p.1, (k', v) :: p.2))

/-- `d[k] = v`: replace the value in place if `k` is present, else append a
new entry. -/
def dict_set : List (String × V) → String → V → List (String × V)
  | [], k, v => [(k, v)]
  | (k', v') :: rest, k, v =>
    if k' = k then (k, v) :: rest else (k', v') :: dict_set rest k v

end Dict

/-! ## `pyvrs/utils.py`: metadata key disambiguation -/

/-- The candidate key `name<…<type>…>` with `i` bracket pairs. -/
def mk_bracket_key (name type_ : String) (i : Nat) : String :=
  name ++ String.mk (List.replicate i '<') ++ type_ ++ String.mk (List.replicate i '>')

/-- Fuel-bounded core of `_unique_string_for_key`'s loop: starting at `i`
bracket pairs, keep adding brackets until the candidate key is not among
`keys`. Each failing candidate is a distinct member of `keys`, so
`keys.length + 1` units of fuel always suffice. -/
def unique_string_aux (name type_ : String) (keys : List String) :
    Nat → Nat → String
  | i, 0 => mk_bracket_key name type_ i
  | i, fuel + 1 =>
    if mk_bracket_key name type_ i ∈ keys then
      unique_string_aux name type_ keys (i + 1) fuel
    else mk_bracket_key name type_ i

/-- `_unique_string_for_key` from `utils.py`: the first key of the form
`name<type>`, `name<<type>>`, … that is not already a key of the dict. -/
def unique_string_for_key {V : Type} (name type_ : String)
    (d : List (String × V)) : String :=
  unique_string_aux name type_ (dict_keys d) 1 (d.length + 1)

/-- The loop state of `stringify_metadata_keys`: the output dict built so
far, the names already marked ambiguous, and the types remembered for the
entries currently stored under their bare name. -/
structure StringifyState (V : Type) where
  filtered : List (String × V)
  ambiguous_names : List String
  removed_types : List (String × String)

/-- One iteration of the loop of `stringify_metadata_keys` over
`metadata_dict.items()`; `none` models an uncaught `KeyError` from
`removed_types.pop(name)`. -/
def stringify_step {V : Type} (st : StringifyState V)
    (entry : (String × String) × V) : Option (StringifyState V) :=
  let name := entry.1.1
  let type_ := entry.1.2
  let value := entry.2
  if name ∈ st.ambiguous_names then
    some { st with
      filtered := dict_set st.filtered (unique_string_for_key name type_ st.filtered) value }
  else if dict_contains st.filtered name then
    match dict_pop st.filtered name with
    | none => none
    | some (old_value, popped) =>
      match dict_pop st.removed_types name with
      | none => none
      | some (old_type, removed') =>
        let f1 := dict_set popped (unique_string_for_key name old_type popped) old_value
        let f2 := dict_set f1 (unique_string_for_key name type_ f1) value
        some { filtered := f2
               ambiguous_names := st.ambiguous_names ++ [name]
               removed_types := removed' }
  else
    some { st with
      filtered := dict_set st.filtered name value
      removed_types := dict_set st.removed_types name type_ }

/-- `stringify_metadata_keys` from `utils.py`, over the entries of the
metadata dict in insertion order; `none` models the uncaught `KeyError` it
can raise. -/
def stringify_metadata_keys {V : Type}
    (metadata_dict : List ((String × String) × V)) :
    Option (List (String × V)) :=
  (metadata_dict.foldlM stringify_step ⟨[], [], []⟩).map (·.filtered)

/-! ## The metadata key resolver as the spec words it

A second resolver, written to follow §4.7 of the spec clause by clause, to
be compared with the embedding of the source. Entries remember their
original name and type so that the "old type" of clause 2 is available. -/

/-- One output entry of the spec's resolver: the chosen key, the original
name and type, and the value. -/
structure SpecEntry (V : Type) where
  key : String
  name : String
  type_ : String
  value : V

/-- The keys chosen so far. -/
def spec_keys {V : Type} (es : List (SpecEntry V)) : List String :=
  es.map (·.key)

/-- Clause 4: the synthesized key `name<type>`, escalating with additional
angle brackets until it is free among `keys`. -/
def spec_unique_key (name type_ : String) (keys : List String) : String :=
  unique_string_aux name type_ keys 1 (keys.length + 1)

/-- The state of the spec's single pass: entries emitted so far and the
names marked ambiguous. -/
structure SpecResolverState (V : Type) where
  entries : List (SpecEntry V)
  ambiguous : List String

/-- One step of the spec's pass (§4.7, clauses 1–4). -/
def spec_resolver_step {V : Type} (st : SpecResolverState V)
    (entry : (String × String) × V) : SpecResolverState V :=
  let name := entry.1.1
  let type_ := entry.1.2
  let value := entry.2
  if name ∈ st.ambiguous then
    { st with entries := st.entries ++
        [⟨spec_unique_key name type_ (spec_keys st.entries), name, type_, value⟩] }
  else
    match st.entries.find? (fun e => e.key = name) with
    | some old =>
      let rest := st.entries.eraseP (fun e => e.key = name)
      let e1 : SpecEntry V := ⟨spec_unique_key name old.type_ (spec_keys rest), name, old.type_, old.value⟩
      let e2 : SpecEntry V := ⟨spec_unique_key name type_ (spec_keys (rest ++ [e1])), name, type_, value⟩
      { entries := rest ++ [e1, e2], ambiguous := st.ambiguous ++ [name] }
    | none => { st with entries := st.entries ++ [⟨name, name, type_, value⟩] }

/-- The output mapping of the spec's resolver. -/
def metadata_key_resolver_spec {V : Type}
    (l : List ((String × String) × V)) : List (String × V) :=
  ((l.foldl spec_resolver_step ⟨[], []⟩).entries).map (fun e => (e.key, e.value))

/-- The simulation relation between the state of the source's
`stringify_metadata_keys` loop and the spec resolver's state: the output
dict is the entry list viewed as key-value pairs, the ambiguous-name sets
agree, the chosen keys are duplicate-free, and `removed_types` holds
exactly the types of the entries currently stored under their bare name. -/
def StringifyInv {V : Type} (cs : StringifyState V)
    (ss : SpecResolverState V) : Prop :=
  cs.filtered = ss.entries.map (fun e => (e.key, e.value)) ∧
  cs.ambiguous_names = ss.ambiguous ∧
  (spec_keys ss.entries).Nodup ∧
  (dict_keys cs.removed_types).Nodup ∧
  ∀ n, dict_find cs.removed_types n =
    (ss.entries.find? (fun e => e.key = n)).bind
      (fun e => if e.key = e.name then some e.type_ else none)

/-! ## Concrete fixtures

Small concrete instances used to evaluate the embedded functions in
witnesses and counterexamples. -/

/-- A small catalog: two `data` records on stream `100-1`, then a
`configuration` record on stream `101-1`, timestamps ascending. -/
def sampleCatalog : Catalog :=
  [⟨"100-1", "data", 1⟩, ⟨"100-1", "data", 2⟩, ⟨"101-1", "configuration", 3⟩]

/-- The filter produced by `filtered_by_fields` with every dimension
omitted. -/
def sampleFilter : RecordFilter :=
  filtered_by_fields sampleCatalog none none none none

/-- The unrestricted filtered view over `sampleCatalog`. -/
def sampleFiltered : FilteredVRSReader := ⟨sampleCatalog, sampleFilter⟩

/-- The filter selecting `data` records of stream `100-1`. -/
def dataFilter : RecordFilter :=
  filtered_by_fields sampleCatalog (some ["100-1"]) (some ["data"]) none none

/-- The filtered view over `sampleCatalog` keeping the two `data` records
of stream `100-1` (filtered index list `[0, 1]`). -/
def dataFiltered : FilteredVRSReader := ⟨sampleCatalog, dataFilter⟩

/-- A filter requesting no record types at all; its derived index list is
empty. -/
def emptyFilter : RecordFilter :=
  filtered_by_fields sampleCatalog none (some []) none none

/-- The filtered view over `sampleCatalog` with an empty derived index
list. -/
def emptyFiltered : FilteredVRSReader := ⟨sampleCatalog, emptyFilter⟩

/-- A metadata block whose third entry's name collides with a key the
resolver has already synthesized: `a` is stored bare, the second entry
re-keys it as `a<t1>`, and the third entry's name is exactly `a<t1>`. -/
def collidingMetadata : List ((String × String) × Nat) :=
  [(("a", "t1"), 1), (("a", "t2"), 2), (("a<t1>", "x"), 3)]

/-- The metadata block of the source's own unit test
(`test_stringify_types_with_ambiguity`). -/
def ambiguityMetadata : List ((String × String) × Nat) :=
  [(("acceleration<int>", "int"), 2), (("acceleration", "int"), 3),
   (("acceleration", "float"), 4), (("other", "int"), 5)]

/-! # Lemmas and theorems -/

/-- With more than `2 * s.length` units of fuel, a glob pattern matches
itself. -/
theorem globMatchFuel_self (s : List Char) :
    ∀ fuel : Nat, 2 * s.length < fuel → globMatchFuel fuel s s = true := by
  induction s with
  | nil =>
    intro fuel hf
    match fuel, hf with
    | f + 1, _ => rfl
  | cons c t ih =>
    intro fuel hf
    match fuel, hf with
    | f + 1, hf =>
      have hft : 2 * t.length + 1 < f := by
        simp only [List.length_cons] at hf
        omega
      by_cases hc : c = '*'
      · subst hc
        have h2 : globMatchFuel f ('*' :: t) t = true := by
          match f, hft with
          | f' + 1, hft' =>
            have h3 : globMatchFuel f' t t = true := ih f' (by omega)
            simp [globMatchFuel, h3]
        simp [globMatchFuel, h2]
      · have h3 := ih f (by omega)
        simp [globMatchFuel, hc, h3]

/-- A glob pattern always matches itself. -/
theorem globMatch_self (s : List Char) : globMatch s s = true :=
  globMatchFuel_self s _ (by omega)

theorem fnmatch_self (s : String) : fnmatch s s = true :=
  globMatch_self s.data

/-! ## Membership in the filtered sets -/

theorem mem_filter_set_on_condition {α : Type} (s items : List α)
    (cond : α → α → Bool) (x : α) :
    x ∈ filter_set_on_condition s items cond ↔
      x ∈ s ∧ ∃ b ∈ items, cond x b = true := by
  simp [filter_set_on_condition, List.mem_filter, List.any_eq_true]

theorem mem_filter_by_stream_ids (avail pats : List String) (x : String) :
    x ∈ filter_by_stream_ids avail pats ↔
      x ∈ avail ∧ ∃ p ∈ pats, fnmatch x p = true :=
  mem_filter_set_on_condition avail pats fnmatch x

theorem mem_filter_by_record_type (avail req : List String) (x : String) :
    x ∈ filter_by_record_type avail req ↔ x ∈ avail ∧ x ∈ req := by
  rw [filter_by_record_type, mem_filter_set_on_condition]
  constructor
  · rintro ⟨hx, b, hb, hcond⟩
    have : x = b := by simpa using hcond
    exact ⟨hx, this ▸ hb⟩
  · rintro ⟨hx, hreq⟩
    exact ⟨hx, x, hreq, by simp⟩

theorem filter_by_stream_ids_self (avail : List String) :
    filter_by_stream_ids avail avail = avail := by
  rw [filter_by_stream_ids, filter_set_on_condition, List.filter_eq_self]
  intro a ha
  rw [List.any_eq_true]
  exact ⟨a, ha, fnmatch_self a⟩

theorem filter_by_record_type_self (avail : List String) :
    filter_by_record_type avail avail = avail := by
  rw [filter_by_record_type, filter_set_on_condition, List.filter_eq_self]
  intro a ha
  rw [List.any_eq_true]
  exact ⟨a, ha, by simp⟩

/-! ## The available timestamp range bounds every record -/

theorem foldl_min_le_init (l : List SourceRecord) :
    ∀ init : ℚ, l.foldl (fun m x => min m x.timestamp) init ≤ init := by
  induction l with
  | nil => intro init; exact le_refl _
  | cons y t ih =>
    intro init
    exact le_trans (ih (min init y.timestamp)) (min_le_left _ _)

theorem foldl_min_le_mem (l : List SourceRecord) :
    ∀ init : ℚ, ∀ x ∈ l,
      l.foldl (fun m x => min m x.timestamp) init ≤ x.timestamp := by
  induction l with
  | nil => intro _ x hx; cases hx
  | cons y t ih =>
    intro init x hx
    rcases List.mem_cons.mp hx with h | h
    · subst h
      exact le_trans (foldl_min_le_init t _) (min_le_right _ _)
    · exact ih _ x h

theorem init_le_foldl_max (l : List SourceRecord) :
    ∀ init : ℚ, init ≤ l.foldl (fun m x => max m x.timestamp) init := by
  induction l with
  | nil => intro init; exact le_refl _
  | cons y t ih =>
    intro init
    exact le_trans (le_max_left _ _) (ih (max init y.timestamp))

theorem mem_le_foldl_max (l : List SourceRecord) :
    ∀ init : ℚ, ∀ x ∈ l,
      x.timestamp ≤ l.foldl (fun m x => max m x.timestamp) init := by
  induction l with
  | nil => intro _ x hx; cases hx
  | cons y t ih =>
    intro init x hx
    rcases List.mem_cons.mp hx with h | h
    · subst h
      exact le_trans (le_max_right _ _) (init_le_foldl_max t _)
    · exact ih _ x h

theorem get_min_available_timestamp_le (c : Catalog) (r : SourceRecord)
    (hr : r ∈ c) : get_min_available_timestamp c ≤ r.timestamp := by
  match c, hr with
  | x :: t, hr =>
    rw [get_min_available_timestamp]
    rcases List.mem_cons.mp hr with h | h
    · subst h; exact foldl_min_le_init t _
    · exact foldl_min_le_mem t _ r h

theorem le_get_max_available_timestamp (c : Catalog) (r : SourceRecord)
    (hr : r ∈ c) : r.timestamp ≤ get_max_available_timestamp c := by
  match c, hr with
  | x :: t, hr =>
    rw [get_max_available_timestamp]
    rcases List.mem_cons.mp hr with h | h
    · subst h; exact init_le_foldl_max t _
    · exact mem_le_foldl_max t _ r h

/-! ## The filter engine's derived index list -/

theorem regenerate_enabled_indices_sublist (c : Catalog)
    (record_types stream_ids : List String) (mn mx : ℚ) :
    (regenerate_enabled_indices c record_types stream_ids mn mx).Sublist
      (List.range c.length) :=
  List.filter_sublist _

theorem mem_regenerate_enabled_indices (c : Catalog)
    (record_types stream_ids : List String) (mn mx : ℚ) (i : Nat) :
    i ∈ regenerate_enabled_indices c record_types stream_ids mn mx ↔
      ∃ r, c.get? i = some r ∧ r.recordType ∈ record_types ∧
        r.streamId ∈ stream_ids ∧ mn ≤ r.timestamp ∧ r.timestamp ≤ mx := by
  rw [regenerate_enabled_indices, List.mem_filter]
  constructor
  · rintro ⟨hrange, hp⟩
    match hc : c.get? i with
    | some r =>
      rw [hc] at hp
      simp only [Bool.and_eq_true, List.elem_iff, decide_eq_true_eq] at hp
      exact ⟨r, rfl, hp.1.1.1, hp.1.1.2, hp.1.2, hp.2⟩
    | none => rw [hc] at hp; cases hp
  · rintro ⟨r, hc, h1, h2, h3, h4⟩
    have hlt : i < c.length := List.get?_eq_some.mp hc |>.1
    refine ⟨List.mem_range.mpr hlt, ?_⟩
    rw [hc]
    simp only [Bool.and_eq_true, List.elem_iff, decide_eq_true_eq]
    exact ⟨⟨⟨h1, h2⟩, h3⟩, h4⟩

theorem mem_regenerate_lt_length (c : Catalog)
    (record_types stream_ids : List String) (mn mx : ℚ) (i : Nat)
    (hi : i ∈ regenerate_enabled_indices c record_types stream_ids mn mx) :
    i < c.length := by
  have := (regenerate_enabled_indices_sublist c record_types stream_ids mn mx).mem hi
  exact List.mem_range.mp this

theorem regenerate_enabled_indices_pairwise (c : Catalog)
    (record_types stream_ids : List String) (mn mx : ℚ) :
    (regenerate_enabled_indices c record_types stream_ids mn mx).Pairwise (· < ·) :=
  (List.pairwise_lt_range c.length).sublist
    (regenerate_enabled_indices_sublist c record_types stream_ids mn mx)

/-!  ## Claim C5 -/

/-- C5: when every dimension of `filtered_by_fields` is omitted, the
resolved filter keeps all available record types, all available stream ids
and the reader's own timestamp range, and the derived index list selects
every record of the catalog. -/
theorem C5_omitted_filter_dimensions_are_unrestricted (c : Catalog) :
    filtered_by_fields c none none none none =
      { record_types := VRSReader.record_types c
        stream_ids := VRSReader.stream_ids c
        min_timestamp := VRSReader.min_timestamp c
        max_timestamp := VRSReader.max_timestamp c } ∧
    FilteredVRSReader.filtered_indices
        ⟨c, filtered_by_fields c none none none none⟩ =
      List.range c.length := by
  have hf : filtered_by_fields c none none none none =
      { record_types := VRSReader.record_types c
        stream_ids := VRSReader.stream_ids c
        min_timestamp := VRSReader.min_timestamp c
        max_timestamp := VRSReader.max_timestamp c } := by
    rw [filtered_by_fields]
    simp only [Option.getD_none]
    rw [filter_by_record_type_self, filter_by_stream_ids_self]
  refine ⟨hf, ?_⟩
  rw [FilteredVRSReader.filtered_indices, hf]
  rw [regenerate_enabled_indices, List.filter_eq_self]
  intro i hi
  have hlt : i < c.length := List.mem_range.mp hi
  have hget : c.get? i = some (c.get ⟨i, hlt⟩) := List.get?_eq_get hlt
  have hmem : c.get ⟨i, hlt⟩ ∈ c := List.get_mem c i hlt
  rw [hget]
  simp only [Bool.and_eq_true, List.elem_iff, decide_eq_true_eq]
  refine ⟨⟨⟨?_, ?_⟩, ?_⟩, ?_⟩
  · exact List.mem_dedup.mpr (List.mem_map_of_mem _ hmem)
  · exact List.mem_dedup.mpr (List.mem_map_of_mem _ hmem)
  · exact get_min_available_timestamp_le c _ hmem
  · exact le_get_max_available_timestamp c _ hmem

/-!  ## Claim C6 -/

/-- C6: the stream-id dimension of a filter is resolved by glob-style
wildcard matching into a concrete subset of the available stream ids, while
the record-type dimension is resolved by exact string equality only, with
no wildcard semantics; `filtered_by_fields` stores the already-expanded
sets. -/
theorem C6_stream_globs_vs_exact_record_types (avail pats req : List String)
    (x : String) (c : Catalog) (sids rtypes : List String) (mn mx : Option ℚ) :
    (x ∈ filter_by_stream_ids avail pats ↔
      x ∈ avail ∧ ∃ p ∈ pats, fnmatch x p = true) ∧
    (x ∈ filter_by_record_type avail req ↔ x ∈ avail ∧ x ∈ req) ∧
    (filtered_by_fields c (some sids) (some rtypes) mn mx).stream_ids =
      filter_by_stream_ids (VRSReader.stream_ids c) sids ∧
    (filtered_by_fields c (some sids) (some rtypes) mn mx).record_types =
      filter_by_record_type (VRSReader.record_types c) rtypes ∧
    fnmatch "1011-2" "1011*" = true ∧
    fnmatch "1011-2" "1011-?" = true ∧
    fnmatch "1010-1" "1011*" = false ∧
    filter_by_stream_ids ["1010-1", "1011-1", "1011-2"] ["1011*"] =
      ["1011-1", "1011-2"] ∧
    filter_by_record_type ["data", "configuration", "state"] ["*"] = [] := by
  refine ⟨mem_filter_by_stream_ids avail pats x,
    mem_filter_by_record_type avail req x, rfl, rfl, ?_, ?_, ?_, ?_, ?_⟩ <;> decide

/-! ## Timestamp lookup -/

/-- For a valid absolute index the unfiltered reader's timestamp lookup
succeeds with the record's timestamp. -/
theorem get_timestamp_for_index_ok (c : Catalog) (i : Nat) (h : i < c.length) :
    ∃ r, c.get? i = some r ∧
      VRSReader.get_timestamp_for_index c (i : Int) = .ok r.timestamp := by
  have hne : ¬ ((VRSReader.n_records c : Int) ≤ (i : Int)) := by
    simp only [VRSReader.n_records]
    exact_mod_cast Nat.not_le.mpr h
  refine ⟨c.get ⟨i, h⟩, List.get?_eq_get h, ?_⟩
  rw [VRSReader.get_timestamp_for_index, if_neg hne, store_get_timestamp_for_index,
    if_pos (Int.natCast_nonneg i)]
  have ht : ((i : Int)).toNat = i := rfl
  rw [ht, List.get?_eq_get h]

/-!  ## Claim C9 -/

/-- C9 (amended): on a filtered view the three image-conversion setters
fail with `NotImplementedError`, while an attempt to re-filter fails
because no class in the filtered view's method resolution order defines
`filtered_by_fields` at all — the attribute lookup raises
`AttributeError`, not `NotImplementedError`. -/
theorem C9_amended_refilter_and_policy_errors (fr : FilteredVRSReader)
    (stream_id recordable_type_id : String) :
    attempt_refilter fr = .error .attributeError ∧
    "filtered_by_fields" ∉ filtered_vrs_reader_attributes ∧
    fr.set_image_conversion = .error .notImplementedError ∧
    fr.set_stream_image_conversion stream_id = .error .notImplementedError ∧
    fr.set_stream_type_image_conversion recordable_type_id =
      .error .notImplementedError := by
  refine ⟨?_, by decide, rfl, rfl, rfl⟩
  rw [attempt_refilter, if_neg (by decide)]

/-- C9 is refuted as stated: re-filtering a concrete filtered view fails
with `AttributeError`, which is not the `NotImplementedError` that realizes
the spec's NotSupported on filtered views. -/
theorem C9_counterexample_refilter_attribute_error :
    attempt_refilter sampleFiltered = .error .attributeError ∧
    PyError.attributeError ≠ PyError.notImplementedError := by
  constructor
  · rw [attempt_refilter, if_neg (by decide)]
  · decide

/-!  ## Claim C10 -/

/-- C10: a filtered view whose derived index list is empty reports
`min_timestamp = 0` and `max_timestamp = 0` instead of failing; when the
list is non-empty, `min_timestamp` and `max_timestamp` are the catalog
timestamps of its first and last absolute indices. -/
theorem C10_filtered_view_timestamp_bounds (c : Catalog) (f : RecordFilter) :
    (FilteredVRSReader.filtered_indices ⟨c, f⟩ = [] →
      FilteredVRSReader.min_timestamp ⟨c, f⟩ = .ok 0 ∧
      FilteredVRSReader.max_timestamp ⟨c, f⟩ = .ok 0) ∧
    (∀ i rest, FilteredVRSReader.filtered_indices ⟨c, f⟩ = i :: rest →
      ∃ r, c.get? i = some r ∧
        FilteredVRSReader.min_timestamp ⟨c, f⟩ = .ok r.timestamp) ∧
    (∀ j, (FilteredVRSReader.filtered_indices ⟨c, f⟩).getLast? = some j →
      ∃ r, c.get? j = some r ∧
        FilteredVRSReader.max_timestamp ⟨c, f⟩ = .ok r.timestamp) := by
  refine ⟨?_, ?_, ?_⟩
  · intro hL
    rw [FilteredVRSReader.min_timestamp, FilteredVRSReader.max_timestamp, hL]
    exact ⟨rfl, rfl⟩
  · intro i rest hL
    have hL' : regenerate_enabled_indices c f.record_types f.stream_ids
        f.min_timestamp f.max_timestamp = i :: rest := hL
    have hi : i < c.length := by
      apply mem_regenerate_lt_length c f.record_types f.stream_ids
          f.min_timestamp f.max_timestamp
      rw [hL']
      exact List.mem_cons_self i rest
    obtain ⟨r, hget, hok⟩ := get_timestamp_for_index_ok c i hi
    refine ⟨r, hget, ?_⟩
    rw [FilteredVRSReader.min_timestamp, hL]
    exact hok
  · intro j hj
    have hjmem : j ∈ FilteredVRSReader.filtered_indices ⟨c, f⟩ :=
      List.mem_of_mem_getLast? hj
    have hjlt : j < c.length :=
      mem_regenerate_lt_length c f.record_types f.stream_ids
        f.min_timestamp f.max_timestamp j hjmem
    obtain ⟨r, hget, hok⟩ := get_timestamp_for_index_ok c j hjlt
    refine ⟨r, hget, ?_⟩
    rw [FilteredVRSReader.max_timestamp, hj]
    exact hok

/-- Witness for C10: the filter requesting no record types derives an empty
index list, and the view then reports a zero timestamp range. -/
theorem C10_witness :
    FilteredVRSReader.filtered_indices emptyFiltered = [] ∧
    (FilteredVRSReader.min_timestamp emptyFiltered = .ok 0 ∧
      FilteredVRSReader.max_timestamp emptyFiltered = .ok 0) :=
  ⟨by decide, (C10_filtered_view_timestamp_bounds sampleCatalog emptyFilter).1 (by decide)⟩

/-! ## Python list indexing -/

theorem pyListGet_nonneg {α : Type} (l : List α) (i : Int) (h : 0 ≤ i) :
    pyListGet l i = l.get? i.toNat := by
  rw [pyListGet]
  simp only [if_neg (not_lt.mpr h), if_pos h]

theorem pyListGet_neg {α : Type} (l : List α) (i : Int) (h : i < 0) :
    pyListGet l i = if 0 ≤ i + l.length then l.get? (i + l.length).toNat else none := by
  rw [pyListGet]
  simp only [if_pos h]

theorem get?_isSome_iff {α : Type} (l : List α) (i : Nat) :
    (l.get? i).isSome = true ↔ i < l.length := by
  rw [Option.isSome_iff_exists]
  constructor
  · rintro ⟨a, ha⟩
    exact (List.get?_eq_some.mp ha).1
  · intro h
    exact ⟨_, List.get?_eq_get h⟩

theorem pyListGet_isSome {α : Type} (l : List α) (i : Int) :
    (pyListGet l i).isSome = true ↔ (-(l.length : Int) ≤ i ∧ i < (l.length : Int)) := by
  rcases lt_or_le i 0 with hneg | hpos
  · rw [pyListGet_neg l i hneg]
    by_cases h0 : 0 ≤ i + l.length
    · rw [if_pos h0, get?_isSome_iff]
      omega
    · rw [if_neg h0]
      simp only [Option.isSome_none, Bool.false_eq_true, false_iff]
      omega
  · rw [pyListGet_nonneg l i hpos, get?_isSome_iff]
    omega

/-!  ## Claim C8 -/

/-- C8 (amended): on the unfiltered reader the timestamp query succeeds
exactly when `0 ≤ i < count` and fails with `IndexError` otherwise; on a
filtered view the query follows Python list semantics — it also accepts
negative indices in `[-count, -1]` (counting from the end) and fails with
`IndexError` exactly outside `[-count, count)`. Neither reader is mutated
(the embedding is pure). -/
theorem C8_amended_timestamp_query_bounds (c : Catalog) (f : RecordFilter)
    (i : Int) :
    ((∃ q, VRSReader.get_timestamp_for_index c i = .ok q) ↔
      (0 ≤ i ∧ i < (c.length : Int))) ∧
    (¬(0 ≤ i ∧ i < (c.length : Int)) →
      VRSReader.get_timestamp_for_index c i = .error .indexError) ∧
    ((∃ q, FilteredVRSReader.get_timestamp_for_index ⟨c, f⟩ i = .ok q) ↔
      (-(((FilteredVRSReader.filtered_indices ⟨c, f⟩).length : Int)) ≤ i ∧
        i < ((FilteredVRSReader.filtered_indices ⟨c, f⟩).length : Int))) ∧
    (¬(-(((FilteredVRSReader.filtered_indices ⟨c, f⟩).length : Int)) ≤ i ∧
        i < ((FilteredVRSReader.filtered_indices ⟨c, f⟩).length : Int)) →
      FilteredVRSReader.get_timestamp_for_index ⟨c, f⟩ i = .error .indexError) := by
  have herr : ¬(0 ≤ i ∧ i < (c.length : Int)) →
      VRSReader.get_timestamp_for_index c i = .error .indexError := by
    intro hcond
    rw [VRSReader.get_timestamp_for_index]
    by_cases hge : (VRSReader.n_records c : Int) ≤ i
    · rw [if_pos hge]
    · rw [if_neg hge, store_get_timestamp_for_index]
      have hio : ¬ 0 ≤ i := by
        simp only [VRSReader.n_records] at hge
        omega
      rw [if_neg hio]
  have hok : (0 ≤ i ∧ i < (c.length : Int)) →
      ∃ q, VRSReader.get_timestamp_for_index c i = .ok q := by
    rintro ⟨h0, hlt⟩
    have hi : i.toNat < c.length := by omega
    obtain ⟨r, _, hr⟩ := get_timestamp_for_index_ok c i.toNat hi
    refine ⟨r.timestamp, ?_⟩
    have hcast : ((i.toNat : Nat) : Int) = i := by omega
    rw [← hcast]
    exact hr
  set L := FilteredVRSReader.filtered_indices ⟨c, f⟩ with hLdef
  have hferr : ¬(-((L.length : Int)) ≤ i ∧ i < (L.length : Int)) →
      FilteredVRSReader.get_timestamp_for_index ⟨c, f⟩ i = .error .indexError := by
    intro hcond
    rw [FilteredVRSReader.get_timestamp_for_index]
    by_cases hge : ((L.length : Int)) ≤ i
    · rw [if_pos (by exact_mod_cast hge)]
    · rw [if_neg (by exact_mod_cast hge)]
      have hnone : pyListGet L i = none := by
        have := pyListGet_isSome L i
        rcases hpy : pyListGet L i with _ | v
        · rfl
        · exfalso
          apply hcond
          have : (pyListGet L i).isSome = true := by rw [hpy]; rfl
          exact (pyListGet_isSome L i).mp this
      rw [hnone]
  have hfok : (-((L.length : Int)) ≤ i ∧ i < (L.length : Int)) →
      ∃ q, FilteredVRSReader.get_timestamp_for_index ⟨c, f⟩ i = .ok q := by
    intro hcond
    have hsome : (pyListGet L i).isSome = true := (pyListGet_isSome L i).mpr hcond
    rcases hpy : pyListGet L i with _ | ai
    · rw [hpy] at hsome; cases hsome
    · have hmem : ai ∈ L := by
        rcases lt_or_le i 0 with hneg | hpos
        · rw [pyListGet_neg L i hneg] at hpy
          rcases le_or_lt 0 (i + L.length) with h0 | h0
          · rw [if_pos h0] at hpy
            exact List.get?_mem hpy
          · rw [if_neg (not_le.mpr h0)] at hpy; cases hpy
        · rw [pyListGet_nonneg L i hpos] at hpy
          exact List.get?_mem hpy
      have hai : ai < c.length :=
        mem_regenerate_lt_length c f.record_types f.stream_ids
          f.min_timestamp f.max_timestamp ai hmem
      obtain ⟨r, _, hr⟩ := get_timestamp_for_index_ok c ai hai
      refine ⟨r.timestamp, ?_⟩
      rw [FilteredVRSReader.get_timestamp_for_index]
      rw [if_neg (by exact_mod_cast not_le.mpr hcond.2)]
      rw [hpy]
      exact hr
  refine ⟨⟨?_, hok⟩, herr, ⟨?_, hfok⟩, hferr⟩
  · rintro ⟨q, hq⟩
    by_contra hcond
    rw [herr hcond] at hq
    cases hq
  · rintro ⟨q, hq⟩
    by_contra hcond
    rw [hferr hcond] at hq
    cases hq

/-- C8 is refuted as stated: on a concrete filtered view with two records,
the timestamp query at index `-1` succeeds (with the last record's
timestamp) even though `-1` lies outside `[0, count)`. -/
theorem C8_counterexample_negative_index_succeeds :
    FilteredVRSReader.get_timestamp_for_index dataFiltered (-1) = .ok 2 ∧
    ¬ ((0 : Int) ≤ -1) := by
  constructor
  · rfl
  · decide

/-- Witness for C8: on the sample catalog (3 records), index 1 succeeds and
index 5 fails with `IndexError`. -/
theorem C8_witness :
    (∃ q, VRSReader.get_timestamp_for_index sampleCatalog 1 = .ok q) ∧
    VRSReader.get_timestamp_for_index sampleCatalog 5 = .error .indexError :=
  ⟨(C8_amended_timestamp_query_bounds sampleCatalog sampleFilter 1).1.mpr (by decide),
   (C8_amended_timestamp_query_bounds sampleCatalog sampleFilter 5).2.1 (by decide)⟩

/-!  ## Claim C2 -/

/-- C2 is a bug in the source: `FilteredVRSReader.read_prev_record` indexes
`self._filtered_indices[index]` without the `try/except IndexError` that
its sibling `read_next_record` has, so the boundary index just past the
last filtered record raises `IndexError` from `read_prev_record` while
`read_next_record` returns `None`; on the unfiltered reader both neighbor
queries convert the store's failure into `None` as the claim states. -/
theorem C2_filtered_read_prev_raises_at_boundary :
    FilteredVRSReader.filtered_indices dataFiltered = [0, 1] ∧
    FilteredVRSReader.read_prev_record dataFiltered "100-1" "data" 2 =
      .error .indexError ∧
    FilteredVRSReader.read_next_record dataFiltered "100-1" "data" 2 = .ok none ∧
    VRSReader.read_prev_record sampleCatalog "101-1" "configuration" (-1) = .ok none ∧
    VRSReader.read_next_record sampleCatalog "100-1" "data" 5 = .ok none := by
  refine ⟨by decide, by rfl, by rfl, by rfl, by rfl⟩

/-! ## Python slice bounds -/

theorem pySliceIdx_natCast (len v : Nat) : pySliceIdx len (v : Int) = min v len := by
  rw [pySliceIdx, if_neg (by omega)]
  congr 1

theorem pyListGet_natCast {α : Type} (l : List α) (n : Nat) :
    pyListGet l (n : Int) = l.get? n := by
  rw [pyListGet_nonneg l n (by omega)]
  congr 1

/-!  ## Claim C7 -/

/-- C7: views support Python negative indexing (`view[-1]` and
`view[len-1]` produce the same result, likewise `-2` and `len-2`); for
`a ≤ b ≤ len`, the sub-view `view[a:b]` has length `b - a` and
`view[a:b][k] = view[a+k]` for every valid `k`; out-of-range slice bounds
clamp Python-style instead of failing. -/
theorem C7_negative_indexing_and_slice_semantics (c : Catalog) (L : List Nat)
    (a b k : Nat) (hlen : 2 ≤ L.length) (hab : a ≤ b) (hbl : b ≤ L.length)
    (hk : k < b - a) :
    index_or_slice_records c L (.int (-1)) =
      index_or_slice_records c L (.int ((L.length : Int) - 1)) ∧
    index_or_slice_records c L (.int (-2)) =
      index_or_slice_records c L (.int ((L.length : Int) - 2)) ∧
    (pySlice L (a : Int) (b : Int)).length = b - a ∧
    index_or_slice_records c (pySlice L (a : Int) (b : Int)) (.int (k : Int)) =
      index_or_slice_records c L (.int ((a + k : Nat) : Int)) ∧
    (∀ b' : Int, (L.length : Int) ≤ b' →
      pySlice L (a : Int) b' = pySlice L (a : Int) (L.length : Int)) ∧
    (∀ a' : Int, a' ≤ -(L.length : Int) →
      pySlice L a' (b : Int) = pySlice L 0 (b : Int)) := by
  have hslice : pySlice L (a : Int) (b : Int) = (L.drop a).take (b - a) := by
    rw [pySlice, pySliceIdx_natCast, pySliceIdx_natCast,
      Nat.min_eq_left (le_trans hab hbl), Nat.min_eq_left hbl]
  have hsl_len : (pySlice L (a : Int) (b : Int)).length = b - a := by
    rw [hslice, List.length_take, List.length_drop]
    omega
  refine ⟨?_, ?_, hsl_len, ?_, ?_, ?_⟩
  · have hg : pyListGet L (-1) = pyListGet L ((L.length : Int) - 1) := by
      rw [pyListGet_neg L (-1) (by omega), if_pos (by omega),
        pyListGet_nonneg L _ (by omega)]
      congr 1
    simp only [index_or_slice_records, hg]
  · have hg : pyListGet L (-2) = pyListGet L ((L.length : Int) - 2) := by
      rw [pyListGet_neg L (-2) (by omega), if_pos (by omega),
        pyListGet_nonneg L _ (by omega)]
      congr 1
    simp only [index_or_slice_records, hg]
  · have hg : pyListGet (pySlice L (a : Int) (b : Int)) (k : Int) =
        pyListGet L ((a + k : Nat) : Int) := by
      rw [pyListGet_natCast, pyListGet_natCast, hslice,
        List.get?_take hk, List.get?_drop]
    simp only [index_or_slice_records, hg]
  · intro b' hb'
    rw [pySlice, pySlice, pySliceIdx_natCast]
    have h1 : pySliceIdx L.length b' = L.length := by
      rw [pySliceIdx, if_neg (by omega)]
      omega
    have h2 : pySliceIdx L.length (L.length : Int) = L.length := by
      rw [pySliceIdx_natCast]
      omega
    rw [h1, h2]
  · intro a' ha'
    rw [pySlice, pySlice, pySliceIdx_natCast]
    have h1 : pySliceIdx L.length a' = 0 := by
      rw [pySliceIdx, if_pos (by omega)]
      omega
    have h2 : pySliceIdx L.length (0 : Int) = 0 := by
      rw [pySliceIdx, if_neg (by omega)]
      simp
    rw [h1, h2]

/-- Witness for C7: on the view `[0, 1, 2]` over the sample catalog, the
slice `1:3` has length 2 and its element 1 is the view's element 2. -/
theorem C7_witness :
    (pySlice ([0, 1, 2] : List Nat) 1 3).length = 2 ∧
    index_or_slice_records sampleCatalog (pySlice ([0, 1, 2] : List Nat) 1 3)
        (.int 1) =
      index_or_slice_records sampleCatalog [0, 1, 2] (.int 2) := by
  obtain ⟨-, -, h3, h4, -, -⟩ :=
    C7_negative_indexing_and_slice_semantics sampleCatalog [0, 1, 2] 1 3 1
      (by decide) (by decide) (by decide) (by decide)
  exact ⟨h3, h4⟩

/-! ## The binary search of `bisect_right` -/

/-- On a list whose `getD`-values are monotone, the binary-search loop of
`bisect_right` partitions the list: everything strictly before the result
is `≤ x`, everything from the result on is `> x`. -/
theorem bisect_right_loop_spec (a : List Nat) (x : Nat)
    (hmono : ∀ p q, p ≤ q → q < a.length → a.getD p 0 ≤ a.getD q 0) :
    ∀ fuel lo hi : Nat, hi - lo ≤ fuel → lo ≤ hi → hi ≤ a.length →
      (∀ i, i < lo → a.getD i 0 ≤ x) →
      (∀ i, hi ≤ i → i < a.length → x < a.getD i 0) →
      lo ≤ bisect_right_loop a x hi lo fuel ∧
      bisect_right_loop a x hi lo fuel ≤ hi ∧
      (∀ i, i < bisect_right_loop a x hi lo fuel → a.getD i 0 ≤ x) ∧
      (∀ i, bisect_right_loop a x hi lo fuel ≤ i → i < a.length →
        x < a.getD i 0) := by
  intro fuel
  induction fuel with
  | zero =>
    intro lo hi hfuel hlohi hhi hlow hhigh
    have : hi = lo := by omega
    subst this
    exact ⟨le_refl _, le_refl _, hlow, hhigh⟩
  | succ f ih =>
    intro lo hi hfuel hlohi hhi hlow hhigh
    rw [bisect_right_loop]
    by_cases hlt : lo < hi
    · rw [if_pos hlt]
      set mid := (lo + hi) / 2 with hmid
      have hmlo : lo ≤ mid := by omega
      have hmhi : mid < hi := by omega
      by_cases hx : x < a.getD mid 0
      · rw [if_pos hx]
        obtain ⟨h1, h2, h3, h4⟩ := ih lo mid (by omega) (by omega) (by omega)
          hlow (fun i hmi hil => lt_of_lt_of_le hx (hmono mid i hmi hil))
        exact ⟨h1, by omega, h3, h4⟩
      · rw [if_neg hx]
        have hmx : a.getD mid 0 ≤ x := not_lt.mp hx
        obtain ⟨h1, h2, h3, h4⟩ := ih (mid + 1) hi (by omega) (by omega) hhi
          (fun i hi1 => le_trans (hmono i mid (by omega) (by omega)) hmx) hhigh
        exact ⟨by omega, h2, h3, h4⟩
    · rw [if_neg hlt]
      have : hi = lo := by omega
      subst this
      exact ⟨le_refl _, le_refl _, hlow, hhigh⟩

/-- `bisect` on a monotone list: the partition property at the top level. -/
theorem bisect_spec (a : List Nat) (x : Nat)
    (hmono : ∀ p q, p ≤ q → q < a.length → a.getD p 0 ≤ a.getD q 0) :
    bisect a x ≤ a.length ∧
    (∀ i, i < bisect a x → a.getD i 0 ≤ x) ∧
    (∀ i, bisect a x ≤ i → i < a.length → x < a.getD i 0) := by
  have h := bisect_right_loop_spec a x hmono a.length 0 a.length
    (by omega) (by omega) (le_refl _)
    (fun i hi => absurd hi (Nat.not_lt_zero i))
    (fun i hi hil => absurd hil (by omega))
  exact ⟨h.2.1, h.2.2.1, h.2.2.2⟩

/-- A strictly increasing list has monotone `getD`-values. -/
theorem pairwise_lt_getD_mono (l : List Nat) (hp : l.Pairwise (· < ·)) :
    ∀ p q, p ≤ q → q < l.length → l.getD p 0 ≤ l.getD q 0 := by
  intro p q hpq hq
  rcases Nat.lt_or_ge p q with hlt | hge
  · have hplen : p < l.length := lt_trans hlt hq
    have := List.pairwise_iff_get.mp hp ⟨p, hplen⟩ ⟨q, hq⟩ hlt
    rw [List.getD_eq_get? , List.getD_eq_get?, List.get?_eq_get hplen,
      List.get?_eq_get hq]
    exact le_of_lt this
  · have : p = q := by omega
    subst this
    exact le_refl _

/-- `getD` at an in-range position is a member of the list. -/
theorem getD_mem_of_lt (l : List Nat) (i : Nat) (h : i < l.length) :
    l.getD i 0 ∈ l := by
  rw [List.getD_eq_get?, List.get?_eq_get h]
  exact List.get_mem l i h

/-!  ## Claim C1 -/

/-- C1: on a filtered view, when the stream id is in the filter's resolved
set and the base reader's full-catalog search returns `r`, the filtered
`get_record_index_by_time` returns `max(bisect(L, r) - 1, 0)`: the
rightmost position of the filtered index list `L` whose absolute index is
`≤ r`, clamped to 0 when every element of `L` exceeds `r`. -/
theorem C1_filtered_time_search_remap (c : Catalog) (f : RecordFilter)
    (stream_id : String) (timestamp : ℚ) (epsilon : Option ℚ) (r : Nat)
    (hmem : stream_id ∈ f.stream_ids)
    (hbase : VRSReader.get_record_index_by_time c stream_id timestamp epsilon =
      .ok r) :
    ∃ k, FilteredVRSReader.get_record_index_by_time ⟨c, f⟩ stream_id timestamp
        epsilon = .ok k ∧
      ((∀ x ∈ FilteredVRSReader.filtered_indices ⟨c, f⟩, r < x) → k = 0) ∧
      (∀ p, p < (FilteredVRSReader.filtered_indices ⟨c, f⟩).length →
        (FilteredVRSReader.filtered_indices ⟨c, f⟩).getD p 0 ≤ r →
        k < (FilteredVRSReader.filtered_indices ⟨c, f⟩).length ∧
        (FilteredVRSReader.filtered_indices ⟨c, f⟩).getD k 0 ≤ r ∧ p ≤ k) := by
  set L := FilteredVRSReader.filtered_indices ⟨c, f⟩ with hL
  have hpair : L.Pairwise (· < ·) :=
    regenerate_enabled_indices_pairwise c f.record_types f.stream_ids
      f.min_timestamp f.max_timestamp
  have hmono := pairwise_lt_getD_mono L hpair
  obtain ⟨hble, hbelow, habove⟩ := bisect_spec L r hmono
  set B := bisect L r with hB
  refine ⟨(max ((B : Int) - 1) 0).toNat, ?_, ?_, ?_⟩
  · simp only [FilteredVRSReader.get_record_index_by_time,
      FilteredVRSReader.stream_ids]
    rw [if_pos hmem, hbase]
  · intro hall
    have hB0 : B = 0 := by
      by_contra hne
      have h1 : 1 ≤ B := Nat.one_le_iff_ne_zero.mpr hne
      have h0len : 0 < L.length := by omega
      have := hbelow 0 (by omega)
      exact absurd this (not_le.mpr (hall _ (getD_mem_of_lt L 0 h0len)))
    rw [hB0]
    rfl
  · intro p hp hpr
    have hpB : p < B := by
      by_contra hge
      exact absurd (habove p (not_lt.mp hge) hp) (not_lt.mpr hpr)
    have h1B : 1 ≤ B := by omega
    have hk : (max ((B : Int) - 1) 0).toNat = B - 1 := by omega
    rw [hk]
    refine ⟨by omega, hbelow (B - 1) (by omega), by omega⟩

/-- Witness for C1: on the `data`-of-`100-1` view over the sample catalog,
the base search for timestamp 2 returns absolute index 1 and the filtered
remap yields a position with the rightmost-`≤` property. -/
theorem C1_witness :
    "100-1" ∈ dataFilter.stream_ids ∧
    VRSReader.get_record_index_by_time sampleCatalog "100-1" 2 none = .ok 1 ∧
    ∃ k, FilteredVRSReader.get_record_index_by_time ⟨sampleCatalog, dataFilter⟩
        "100-1" 2 none = .ok k ∧
      ((∀ x ∈ FilteredVRSReader.filtered_indices ⟨sampleCatalog, dataFilter⟩,
        1 < x) → k = 0) ∧
      (∀ p,
        p < (FilteredVRSReader.filtered_indices ⟨sampleCatalog, dataFilter⟩).length →
        (FilteredVRSReader.filtered_indices ⟨sampleCatalog, dataFilter⟩).getD p 0 ≤ 1 →
        k < (FilteredVRSReader.filtered_indices ⟨sampleCatalog, dataFilter⟩).length ∧
        (FilteredVRSReader.filtered_indices ⟨sampleCatalog, dataFilter⟩).getD k 0 ≤ 1 ∧
        p ≤ k) := by
  refine ⟨by decide, by rfl, ?_⟩
  exact C1_filtered_time_search_remap sampleCatalog dataFilter "100-1" 2 none 1
    (by decide) (by rfl)

/-! ## Dict lemmas -/

section DictLemmas

variable {V : Type}

theorem dict_keys_append (d e : List (String × V)) :
    dict_keys (d ++ e) = dict_keys d ++ dict_keys e :=
  List.map_append _ d e

theorem dict_contains_iff (d : List (String × V)) (k : String) :
    dict_contains d k = true ↔ k ∈ dict_keys d := by
  rw [dict_contains, List.any_eq_true]
  constructor
  · rintro ⟨p, hp, hpk⟩
    have hk : p.1 = k := by simpa using hpk
    exact hk ▸ List.mem_map_of_mem Prod.fst hp
  · intro hk
    rcases List.mem_map.mp hk with ⟨p, hp, hpk⟩
    exact ⟨p, hp, by simp [hpk]⟩

theorem dict_set_append (d : List (String × V)) (k : String) (v : V)
    (hk : k ∉ dict_keys d) : dict_set d k v = d ++ [(k, v)] := by
  induction d with
  | nil => rfl
  | cons p t ih =>
    obtain ⟨k', v'⟩ := p
    rw [dict_keys, List.map_cons, List.mem_cons] at hk
    push_neg at hk
    rw [dict_set, if_neg (by simpa using (hk.1).symm), List.cons_append]
    congr 1
    exact ih hk.2

theorem dict_find_cons (k' : String) (v' : V) (d : List (String × V))
    (n : String) :
    dict_find ((k', v') :: d) n = if k' = n then some v' else dict_find d n := by
  rw [dict_find, List.find?]
  by_cases h : k' = n
  · simp [h]
  · simp only [h, decide_False, if_neg h]
    rfl

theorem dict_find_eq_none (d : List (String × V)) (k : String)
    (hk : k ∉ dict_keys d) : dict_find d k = none := by
  induction d with
  | nil => rfl
  | cons p t ih =>
    obtain ⟨k', v'⟩ := p
    rw [dict_keys, List.map_cons, List.mem_cons] at hk
    push_neg at hk
    rw [dict_find_cons, if_neg hk.1.symm]
    exact ih hk.2

theorem dict_find_mem (d : List (String × V)) (k : String)
    (hk : k ∈ dict_keys d) : ∃ v, dict_find d k = some v := by
  induction d with
  | nil => cases hk
  | cons p t ih =>
    obtain ⟨k', v'⟩ := p
    rw [dict_find_cons]
    by_cases h : k' = k
    · exact ⟨v', if_pos h⟩
    · rw [if_neg h]
      rw [dict_keys, List.map_cons, List.mem_cons] at hk
      rcases hk with hk | hk
      · exact absurd hk.symm h
      · exact ih hk

theorem dict_find_append (d e : List (String × V)) (k : String) :
    dict_find (d ++ e) k =
      match dict_find d k with
      | some v => some v
      | none => dict_find e k := by
  induction d with
  | nil => rfl
  | cons p t ih =>
    obtain ⟨k', v'⟩ := p
    rw [List.cons_append, dict_find_cons, dict_find_cons]
    by_cases h : k' = k
    · rw [if_pos h, if_pos h]
    · rw [if_neg h, if_neg h, ih]

/-- Decomposition of a successful `dict_pop`: the dict splits at the first
entry with the popped key. -/
theorem dict_pop_decomp (d : List (String × V)) (k : String) (v : V)
    (d' : List (String × V)) (h : dict_pop d k = some (v, d')) :
    ∃ d1 d2, d = d1 ++ (k, v) :: d2 ∧ d' = d1 ++ d2 ∧ k ∉ dict_keys d1 := by
  induction d generalizing d' with
  | nil => cases h
  | cons p t ih =>
    obtain ⟨k', v'⟩ := p
    rw [dict_pop] at h
    by_cases hk : k' = k
    · rw [if_pos hk] at h
      obtain ⟨hv, hd⟩ := Prod.mk.injEq .. ▸ (Option.some.inj h)
      subst hk hv hd
      exact ⟨[], t, rfl, rfl, by simp [dict_keys]⟩
    · rw [if_neg hk] at h
      match hp : dict_pop t k with
      | none => rw [hp] at h; cases h
      | some (v2, t2) =>
        rw [hp] at h
        simp only [Option.map_some'] at h
        obtain ⟨hv, hd⟩ := Prod.mk.injEq .. ▸ (Option.some.inj h)
        subst hv
        obtain ⟨d1, d2, ht, ht2, hk1⟩ := ih t2 hp
        refine ⟨(k', v') :: d1, d2, by rw [ht, List.cons_append], ?_, ?_⟩
        · rw [← hd, ht2, List.cons_append]
        · rw [dict_keys, List.map_cons, List.mem_cons]
          push_neg
          exact ⟨fun hkk => hk hkk.symm, hk1⟩

theorem dict_pop_none (d : List (String × V)) (k : String)
    (hk : k ∉ dict_keys d) : dict_pop d k = none := by
  induction d with
  | nil => rfl
  | cons p t ih =>
    obtain ⟨k', v'⟩ := p
    rw [dict_keys, List.map_cons, List.mem_cons] at hk
    push_neg at hk
    rw [dict_pop, if_neg hk.1.symm, ih hk.2]
    rfl

theorem dict_pop_of_find (d : List (String × V)) (k : String) (v : V)
    (h : dict_find d k = some v) : ∃ d', dict_pop d k = some (v, d') := by
  induction d with
  | nil => cases h
  | cons p t ih =>
    obtain ⟨k', v'⟩ := p
    rw [dict_find_cons] at h
    rw [dict_pop]
    by_cases hk : k' = k
    · rw [if_pos hk] at h
      rw [if_pos hk]
      exact ⟨t, by rw [Option.some.inj h]⟩
    · rw [if_neg hk] at h
      rw [if_neg hk]
      obtain ⟨t', ht⟩ := ih h
      exact ⟨(k', v') :: t', by rw [ht]; rfl⟩

end DictLemmas

/-! ## Freshness of the synthesized bracket keys -/

theorem mk_bracket_key_length (name type_ : String) (i : Nat) :
    (mk_bracket_key name type_ i).length = name.length + type_.length + 2 * i := by
  rw [mk_bracket_key, String.length_append, String.length_append,
    String.length_append]
  have h1 : (String.mk (List.replicate i '<')).length = i := by
    have : (String.mk (List.replicate i '<')).length =
        (List.replicate i '<').length := rfl
    rw [this, List.length_replicate]
  have h2 : (String.mk (List.replicate i '>')).length = i := by
    have : (String.mk (List.replicate i '>')).length =
        (List.replicate i '>').length := rfl
    rw [this, List.length_replicate]
  omega

theorem mk_bracket_key_ne_name (name type_ : String) (i : Nat) (hi : 1 ≤ i) :
    mk_bracket_key name type_ i ≠ name := by
  intro h
  have := congrArg String.length h
  rw [mk_bracket_key_length] at this
  omega

theorem exists_free_bracket_key (name type_ : String) (keys : List String)
    (i : Nat) :
    ∃ j, i ≤ j ∧ j ≤ i + keys.length ∧ mk_bracket_key name type_ j ∉ keys := by
  by_contra hall
  push_neg at hall
  have hsub : ((List.range (keys.length + 1)).map
      (fun d => mk_bracket_key name type_ (i + d))) ⊆ keys := by
    intro x hx
    rcases List.mem_map.mp hx with ⟨d, hd, rfl⟩
    exact hall (i + d) (by omega) (by have := List.mem_range.mp hd; omega)
  have hinj : Function.Injective (fun d => mk_bracket_key name type_ (i + d)) := by
    intro d1 d2 hEq
    have := congrArg String.length hEq
    rw [mk_bracket_key_length, mk_bracket_key_length] at this
    omega
  have hnd := (List.nodup_range (keys.length + 1)).map hinj
  have hlen := (List.subperm_of_subset hnd hsub).length_le
  rw [List.length_map, List.length_range] at hlen
  omega

theorem unique_string_aux_not_mem (name type_ : String) (keys : List String) :
    ∀ fuel i, (∃ j, i ≤ j ∧ j ≤ i + fuel ∧ mk_bracket_key name type_ j ∉ keys) →
      unique_string_aux name type_ keys i fuel ∉ keys := by
  intro fuel
  induction fuel with
  | zero =>
    rintro i ⟨j, hj1, hj2, hj3⟩
    have hij : j = i := by omega
    subst hij
    exact hj3
  | succ f ih =>
    rintro i ⟨j, hj1, hj2, hj3⟩
    rw [unique_string_aux]
    by_cases hin : mk_bracket_key name type_ i ∈ keys
    · rw [if_pos hin]
      have hji : j ≠ i := fun h => hj3 (h ▸ hin)
      exact ih (i + 1) ⟨j, by omega, by omega, hj3⟩
    · rw [if_neg hin]
      exact hin

theorem unique_string_aux_is_bracket (name type_ : String)
    (keys : List String) :
    ∀ fuel i, ∃ j, i ≤ j ∧
      unique_string_aux name type_ keys i fuel = mk_bracket_key name type_ j := by
  intro fuel
  induction fuel with
  | zero => intro i; exact ⟨i, le_refl i, rfl⟩
  | succ f ih =>
    intro i
    rw [unique_string_aux]
    by_cases hin : mk_bracket_key name type_ i ∈ keys
    · rw [if_pos hin]
      obtain ⟨j, hj1, hj2⟩ := ih (i + 1)
      exact ⟨j, by omega, hj2⟩
    · rw [if_neg hin]
      exact ⟨i, le_refl i, rfl⟩

theorem spec_unique_key_not_mem (name type_ : String) (keys : List String) :
    spec_unique_key name type_ keys ∉ keys := by
  rw [spec_unique_key]
  apply unique_string_aux_not_mem
  obtain ⟨j, h1, h2, h3⟩ := exists_free_bracket_key name type_ keys 1
  exact ⟨j, h1, by omega, h3⟩

theorem spec_unique_key_ne_name (name type_ : String) (keys : List String) :
    spec_unique_key name type_ keys ≠ name := by
  rw [spec_unique_key]
  obtain ⟨j, hj1, hj2⟩ := unique_string_aux_is_bracket name type_ keys
    (keys.length + 1) 1
  rw [hj2]
  exact mk_bracket_key_ne_name name type_ j hj1

theorem unique_eq_spec_unique {V : Type} (name type_ : String)
    (d : List (String × V)) :
    unique_string_for_key name type_ d = spec_unique_key name type_ (dict_keys d) := by
  rw [unique_string_for_key, spec_unique_key, dict_keys, List.length_map]

theorem unique_string_for_key_not_mem {V : Type} (name type_ : String)
    (d : List (String × V)) :
    unique_string_for_key name type_ d ∉ dict_keys d := by
  rw [unique_eq_spec_unique]
  exact spec_unique_key_not_mem name type_ (dict_keys d)

theorem unique_string_for_key_ne_name {V : Type} (name type_ : String)
    (d : List (String × V)) :
    unique_string_for_key name type_ d ≠ name := by
  rw [unique_eq_spec_unique]
  exact spec_unique_key_ne_name name type_ (dict_keys d)

theorem nodup_append_singleton {α : Type} (l : List α) (x : α) (hnd : l.Nodup)
    (hx : x ∉ l) : (l ++ [x]).Nodup := by
  rw [List.nodup_append]
  refine ⟨hnd, List.nodup_singleton x, fun a ha hb => ?_⟩
  rw [List.mem_singleton] at hb
  exact hx (hb ▸ ha)

/-! ## One step of `stringify_metadata_keys` grows the output by one -/

theorem stringify_step_size {V : Type} (cs cs' : StringifyState V)
    (e : (String × String) × V) (h : stringify_step cs e = some cs')
    (hnd : (dict_keys cs.filtered).Nodup) :
    cs'.filtered.length = cs.filtered.length + 1 ∧
      (dict_keys cs'.filtered).Nodup := by
  obtain ⟨⟨name, type_⟩, value⟩ := e
  rw [stringify_step] at h
  by_cases hamb : name ∈ cs.ambiguous_names
  · rw [if_pos hamb] at h
    obtain rfl := (Option.some.inj h).symm
    have hu := unique_string_for_key_not_mem name type_ cs.filtered
    simp only
    rw [dict_set_append _ _ _ hu, dict_keys_append]
    refine ⟨by rw [List.length_append]; rfl, ?_⟩
    rw [← dict_keys_append, ← dict_set_append _ _ _ hu]
    rw [dict_set_append _ _ _ hu, dict_keys_append]
    exact nodup_append_singleton _ _ hnd hu
  · rw [if_neg hamb] at h
    by_cases hcon : dict_contains cs.filtered name = true
    · rw [if_pos hcon] at h
      rcases hp1 : dict_pop cs.filtered name with _ | ⟨old_value, popped⟩
      · rw [hp1] at h; cases h
      · rw [hp1] at h
        rcases hp2 : dict_pop cs.removed_types name with _ | ⟨old_type, removed'⟩
        · rw [hp2] at h; cases h
        · rw [hp2] at h
          simp only at h
          obtain rfl := (Option.some.inj h).symm
          obtain ⟨d1, d2, hsplit, hpopped, -⟩ :=
            dict_pop_decomp cs.filtered name old_value popped hp1
          have hlen : popped.length + 1 = cs.filtered.length := by
            rw [hsplit, hpopped]
            simp only [List.length_append, List.length_cons]
            omega
          have hnd' : (dict_keys popped).Nodup := by
            have hsub : (dict_keys popped).Sublist (dict_keys cs.filtered) := by
              rw [hsplit, hpopped, dict_keys_append, dict_keys_append]
              exact (List.sublist_cons_self _ _).append_left (dict_keys d1)
            exact hnd.sublist hsub
          have hu1 := unique_string_for_key_not_mem name old_type popped
          set k1 := unique_string_for_key name old_type popped
          set f1 := dict_set popped k1 old_value with hf1
          have hf1e : f1 = popped ++ [(k1, old_value)] :=
            dict_set_append popped k1 old_value hu1
          have hnd1 : (dict_keys f1).Nodup := by
            rw [hf1e, dict_keys_append]
            exact nodup_append_singleton _ _ hnd' hu1
          have hu2 := unique_string_for_key_not_mem name type_ f1
          set k2 := unique_string_for_key name type_ f1
          set f2 := dict_set f1 k2 value with hf2
          have hf2e : f2 = f1 ++ [(k2, value)] :=
            dict_set_append f1 k2 value hu2
          constructor
          · simp only
            rw [hf2e, hf1e]
            simp [List.length_append]
            omega
          · simp only
            rw [hf2e, dict_keys_append]
            exact nodup_append_singleton _ _ hnd1 hu2
    · rw [if_neg hcon] at h
      obtain rfl := (Option.some.inj h).symm
      have hname : name ∉ dict_keys cs.filtered := by
        intro hmem
        exact hcon ((dict_contains_iff cs.filtered name).mpr hmem)
      simp only
      rw [dict_set_append _ _ _ hname, dict_keys_append]
      exact ⟨by rw [List.length_append]; rfl,
        nodup_append_singleton _ _ hnd hname⟩

/-- Folding `stringify_step` over a list of entries, when it succeeds,
adds exactly one output entry per input entry and keeps the keys
duplicate-free. -/
theorem stringify_fold_size {V : Type} :
    ∀ (l : List ((String × String) × V)) (cs out_st : StringifyState V),
      l.foldlM stringify_step cs = some out_st →
      (dict_keys cs.filtered).Nodup →
      out_st.filtered.length = cs.filtered.length + l.length ∧
        (dict_keys out_st.filtered).Nodup := by
  intro l
  induction l with
  | nil =>
    intro cs out_st h hnd
    obtain rfl := Option.some.inj h
    exact ⟨rfl, hnd⟩
  | cons e t ih =>
    intro cs out_st h hnd
    rw [List.foldlM_cons] at h
    rcases hstep : stringify_step cs e with _ | cs1
    · rw [hstep] at h; cases h
    · rw [hstep] at h
      obtain ⟨h1, h2⟩ := stringify_step_size cs cs1 e hstep hnd
      obtain ⟨h3, h4⟩ := ih cs1 out_st h h2
      refine ⟨by rw [h3, h1, List.length_cons]; omega, h4⟩

/-!  ## Claim C4 -/

/-- C4 (amended): whenever `stringify_metadata_keys` completes without
raising, its output has exactly one entry per input entry and all output
keys are pairwise distinct; completion can fail (`KeyError`) when an
entry's name equals an already-synthesized key. -/
theorem C4_resolver_output_size_and_distinct_keys {V : Type}
    (l : List ((String × String) × V)) (out : List (String × V))
    (_hkeys : (l.map Prod.fst).Nodup)
    (hok : stringify_metadata_keys l = some out) :
    out.length = l.length ∧ (dict_keys out).Nodup := by
  rw [stringify_metadata_keys] at hok
  rcases hfold : l.foldlM stringify_step ⟨[], [], []⟩ with _ | out_st
  · rw [hfold] at hok; cases hok
  · rw [hfold] at hok
    simp only [Option.map_some'] at hok
    obtain rfl := Option.some.inj hok
    obtain ⟨h1, h2⟩ := stringify_fold_size l ⟨[], [], []⟩ out_st hfold
      (by simp [dict_keys])
    exact ⟨by simpa using h1, h2⟩

/-- C4 is refuted as stated: an input with distinct `(name, type)` keys on
which the resolver raises `KeyError`, so no output of the claimed size
exists. -/
theorem C4_counterexample_resolver_raises :
    (collidingMetadata.map Prod.fst).Nodup ∧
    stringify_metadata_keys collidingMetadata = none := by
  exact ⟨by decide, by rfl⟩

/-- Witness for C4: on the source's own ambiguity test input the resolver
completes, and the output has 4 entries with pairwise distinct keys. -/
theorem C4_witness :
    (ambiguityMetadata.map Prod.fst).Nodup ∧
    stringify_metadata_keys ambiguityMetadata =
      some [("acceleration<int>", 2), ("acceleration<<int>>", 3),
        ("acceleration<float>", 4), ("other", 5)] ∧
    ([("acceleration<int>", (2 : Nat)), ("acceleration<<int>>", 3),
        ("acceleration<float>", 4), ("other", 5)].length =
      ambiguityMetadata.length ∧
     (dict_keys [("acceleration<int>", (2 : Nat)), ("acceleration<<int>>", 3),
        ("acceleration<float>", 4), ("other", 5)]).Nodup) := by
  refine ⟨by decide, by rfl, ?_⟩
  exact C4_resolver_output_size_and_distinct_keys ambiguityMetadata _
    (by decide) (by rfl)

/-! ## Relating the source resolver's dict to the spec resolver's entries -/

theorem keys_map_entries {V : Type} (es : List (SpecEntry V)) :
    dict_keys (es.map (fun e => (e.key, e.value))) = spec_keys es := by
  rw [dict_keys, spec_keys, List.map_map]
  rfl

theorem find?_append_cases {α : Type} (l1 l2 : List α) (p : α → Bool) :
    (l1 ++ l2).find? p =
      match l1.find? p with
      | some x => some x
      | none => l2.find? p := by
  induction l1 with
  | nil => rfl
  | cons x t ih =>
    rw [List.cons_append]
    by_cases hx : p x = true
    · rw [List.find?_cons_of_pos _ hx, List.find?_cons_of_pos _ hx]
    · rw [List.find?_cons_of_neg _ hx, List.find?_cons_of_neg _ hx, ih]

/-- Erasing the entries matched by `q` does not change `find? p` when no
element can match both predicates. -/
theorem find?_eraseP_of_disjoint {α : Type} (p q : α → Bool) (l : List α)
    (hpq : ∀ x, p x = true → q x = false) :
    (l.eraseP q).find? p = l.find? p := by
  induction l with
  | nil => rfl
  | cons x t ih =>
    by_cases hq : q x = true
    · rw [List.eraseP_cons_of_pos hq]
      have hp : ¬ p x = true := fun hp => by rw [hpq x hp] at hq; cases hq
      rw [List.find?_cons_of_neg _ hp]
    · rw [List.eraseP_cons_of_neg hq]
      by_cases hp : p x = true
      · rw [List.find?_cons_of_pos _ hp, List.find?_cons_of_pos _ hp]
      · rw [List.find?_cons_of_neg _ hp, List.find?_cons_of_neg _ hp, ih]

theorem spec_keys_eraseP_sublist {V : Type} (es : List (SpecEntry V))
    (q : SpecEntry V → Bool) :
    (spec_keys (es.eraseP q)).Sublist (spec_keys es) :=
  (List.eraseP_sublist es).map _

/-- With duplicate-free keys, erasing the entry keyed `n` removes `n` from
the key set. -/
theorem key_not_mem_eraseP {V : Type} (es : List (SpecEntry V)) (n : String)
    (hnd : (spec_keys es).Nodup) :
    n ∉ spec_keys (es.eraseP (fun e => e.key = n)) := by
  induction es with
  | nil => simp [spec_keys]
  | cons x t ih =>
    rw [spec_keys, List.map_cons, List.nodup_cons] at hnd
    by_cases hx : x.key = n
    · rw [List.eraseP_cons_of_pos (by simp [hx])]
      rw [← hx]
      exact hnd.1
    · rw [List.eraseP_cons_of_neg (by simp [hx])]
      rw [spec_keys, List.map_cons, List.mem_cons]
      push_neg
      exact ⟨fun h => hx h.symm, ih hnd.2⟩

/-- A successful `dict_pop` returns the value `dict_find` sees. -/
theorem dict_find_of_pop {V : Type} (d : List (String × V)) (k : String)
    (v : V) (d' : List (String × V)) (h : dict_pop d k = some (v, d')) :
    dict_find d k = some v := by
  obtain ⟨d1, d2, hsplit, -, hk1⟩ := dict_pop_decomp d k v d' h
  rw [hsplit, dict_find_append, dict_find_eq_none d1 k hk1, dict_find_cons,
    if_pos rfl]

/-- With duplicate-free keys, after popping `k` the dict answers `find`
like the original for every other key and `none` for `k`. -/
theorem dict_pop_find_nodup {V : Type} (d : List (String × V)) (k : String)
    (v : V) (d' : List (String × V)) (hnd : (dict_keys d).Nodup)
    (h : dict_pop d k = some (v, d')) :
    ∀ n, dict_find d' n = if n = k then none else dict_find d n := by
  obtain ⟨d1, d2, hsplit, hd', hk1⟩ := dict_pop_decomp d k v d' h
  have hk2 : k ∉ dict_keys d2 := by
    rw [hsplit] at hnd
    simp only [dict_keys, List.map_append, List.map_cons] at hnd
    have h2 := (List.nodup_append.mp hnd).2.1
    rw [List.nodup_cons] at h2
    exact h2.1
  intro n
  by_cases hn : n = k
  · subst hn
    rw [if_pos rfl, hd', dict_find_append, dict_find_eq_none d1 n hk1,
      dict_find_eq_none d2 n hk2]
  · rw [if_neg hn, hd', hsplit, dict_find_append, dict_find_append,
      dict_find_cons, if_neg (fun hkn => hn hkn.symm)]

theorem dict_pop_keys_nodup {V : Type} (d : List (String × V)) (k : String)
    (v : V) (d' : List (String × V)) (hnd : (dict_keys d).Nodup)
    (h : dict_pop d k = some (v, d')) : (dict_keys d').Nodup := by
  obtain ⟨d1, d2, hsplit, hd', -⟩ := dict_pop_decomp d k v d' h
  apply hnd.sublist
  rw [hsplit, hd']
  simp only [dict_keys, List.map_append, List.map_cons]
  exact (List.sublist_cons_self _ _).append_left _

/-- Popping the first entry keyed `n` from a key-value view of the spec
entries is erasing the entry keyed `n`. -/
theorem dict_pop_map_entries {V : Type} (es : List (SpecEntry V)) (n : String)
    (old : SpecEntry V) (hfind : es.find? (fun e => e.key = n) = some old) :
    dict_pop (es.map (fun e => (e.key, e.value))) n =
      some (old.value, (es.eraseP (fun e => e.key = n)).map
        (fun e => (e.key, e.value))) := by
  induction es with
  | nil => cases hfind
  | cons x t ih =>
    by_cases hx : x.key = n
    · rw [List.find?_cons_of_pos _ (by simp [hx])] at hfind
      obtain rfl := Option.some.inj hfind
      rw [List.map_cons, dict_pop, if_pos hx,
        List.eraseP_cons_of_pos (by simp [hx])]
    · rw [List.find?_cons_of_neg _ (by simp [hx])] at hfind
      rw [List.map_cons, dict_pop, if_neg hx, ih hfind,
        List.eraseP_cons_of_neg (by simp [hx]), List.map_cons]
      rfl

/-- Appending an entry whose key differs from its name never contributes a
bare type, so the `removed_types` view is unchanged. -/
theorem find?_bind_append_synth {V : Type} (es : List (SpecEntry V))
    (e' : SpecEntry V) (hne : e'.key ≠ e'.name) (n : String) :
    ((es ++ [e']).find? (fun x => x.key = n)).bind
        (fun x => if x.key = x.name then some x.type_ else none) =
      (es.find? (fun x => x.key = n)).bind
        (fun x => if x.key = x.name then some x.type_ else none) := by
  rw [find?_append_cases]
  rcases hf : es.find? (fun x => x.key = n) with _ | e
  · simp only [hf]
    by_cases he : e'.key = n
    · rw [List.find?_cons_of_pos _ (by simp [he])]
      simp [hne]
    · rw [List.find?_cons_of_neg _ (by simp [he])]
      rfl
  · simp only [hf]

/-! ## One step of the source resolver simulates one step of the spec's -/

theorem stringify_spec_step {V : Type} (cs cs' : StringifyState V)
    (ss : SpecResolverState V) (e : (String × String) × V)
    (hinv : StringifyInv cs ss) (hstep : stringify_step cs e = some cs') :
    StringifyInv cs' (spec_resolver_step ss e) := by
  obtain ⟨⟨name, type_⟩, value⟩ := e
  obtain ⟨hA, hB, hD, hE, hC⟩ := hinv
  have hkeys_eq : dict_keys cs.filtered = spec_keys ss.entries := by
    rw [hA, keys_map_entries]
  rw [stringify_step] at hstep
  by_cases hamb : name ∈ cs.ambiguous_names
  · -- the name is already ambiguous: spec clauses 3 and 4
    rw [if_pos hamb] at hstep
    obtain rfl := (Option.some.inj hstep).symm
    have hambs : name ∈ ss.ambiguous := hB ▸ hamb
    have hspec : spec_resolver_step ss ((name, type_), value) =
        { ss with entries := ss.entries ++
            [⟨spec_unique_key name type_ (spec_keys ss.entries), name, type_,
              value⟩] } := by
      simp only [spec_resolver_step]
      rw [if_pos hambs]
    rw [hspec]
    have hunot : spec_unique_key name type_ (spec_keys ss.entries) ∉
        spec_keys ss.entries := spec_unique_key_not_mem _ _ _
    have hune : spec_unique_key name type_ (spec_keys ss.entries) ≠ name :=
      spec_unique_key_ne_name _ _ _
    have huq : unique_string_for_key name type_ cs.filtered =
        spec_unique_key name type_ (spec_keys ss.entries) := by
      rw [unique_eq_spec_unique, hkeys_eq]
    refine ⟨?_, hB, ?_, hE, ?_⟩
    · show dict_set cs.filtered (unique_string_for_key name type_ cs.filtered)
        value = _
      rw [huq, hA,
        dict_set_append _ _ _ (by rw [keys_map_entries]; exact hunot),
        List.map_append]
      rfl
    · show (spec_keys (ss.entries ++ [_])).Nodup
      simp only [spec_keys, List.map_append, List.map_cons, List.map_nil]
      simp only [spec_keys] at hD hunot
      exact nodup_append_singleton _ _ hD hunot
    · intro n
      show dict_find cs.removed_types n = _
      rw [find?_bind_append_synth ss.entries _ hune n]
      exact hC n
  · rw [if_neg hamb] at hstep
    have hambs : name ∉ ss.ambiguous := hB ▸ hamb
    by_cases hcon : dict_contains cs.filtered name = true
    · -- first collision for the name: spec clause 2
      rw [if_pos hcon] at hstep
      have hmemk : name ∈ spec_keys ss.entries := by
        rw [← hkeys_eq]
        exact (dict_contains_iff _ _).mp hcon
      obtain ⟨e0, he0, hkey0⟩ := List.mem_map.mp hmemk
      have hfs : (ss.entries.find? (fun e => e.key = name)).isSome :=
        List.find?_isSome.mpr ⟨e0, he0, by simp [hkey0]⟩
      obtain ⟨old, hfind⟩ := Option.isSome_iff_exists.mp hfs
      have hold_key : old.key = name := by
        have := List.find?_some hfind
        simpa using this
      set rest := ss.entries.eraseP (fun e => e.key = name) with hrest
      set e1 : SpecEntry V :=
        ⟨spec_unique_key name old.type_ (spec_keys rest), name, old.type_,
          old.value⟩ with he1
      set e2 : SpecEntry V :=
        ⟨spec_unique_key name type_ (spec_keys (rest ++ [e1])), name, type_,
          value⟩ with he2
      have hspec : spec_resolver_step ss ((name, type_), value) =
          { entries := rest ++ [e1, e2], ambiguous := ss.ambiguous ++ [name] } := by
        simp only [spec_resolver_step]
        rw [if_neg hambs, hfind]
      rcases hp1 : dict_pop cs.filtered name with _ | ⟨old_value, popped⟩
      · rw [hp1] at hstep
        cases hstep
      · rw [hp1] at hstep
        rcases hp2 : dict_pop cs.removed_types name with _ | ⟨old_type, removed'⟩
        · rw [hp2] at hstep
          cases hstep
        · rw [hp2] at hstep
          simp only at hstep
          obtain rfl := (Option.some.inj hstep).symm
          rw [hspec]
          -- the popped entry is the bare entry the spec re-keys
          have hpop_map : dict_pop cs.filtered name =
              some (old.value, rest.map (fun e => (e.key, e.value))) := by
            rw [hA]
            exact dict_pop_map_entries ss.entries name old hfind
          rw [hp1] at hpop_map
          have hpairs := Option.some.inj hpop_map
          have hov : old_value = old.value := congrArg Prod.fst hpairs
          have hpoppedm : popped = rest.map (fun e => (e.key, e.value)) :=
            congrArg Prod.snd hpairs
          -- the popped type is the recorded type of that bare entry
          have hfrt : dict_find cs.removed_types name = some old_type :=
            dict_find_of_pop _ _ _ _ hp2
          rw [hC name, hfind, Option.some_bind] at hfrt
          by_cases hbare : old.key = old.name
          swap
          · rw [if_neg hbare] at hfrt
            cases hfrt
          rw [if_pos hbare] at hfrt
          have hot : old_type = old.type_ := (Option.some.inj hfrt).symm
          have hu1 : unique_string_for_key name old_type popped ∉
              dict_keys popped := unique_string_for_key_not_mem _ _ _
          have hf1m : dict_set popped (unique_string_for_key name old_type popped)
              old_value = (rest ++ [e1]).map (fun e => (e.key, e.value)) := by
            rw [dict_set_append _ _ _ hu1, hot, hov, hpoppedm,
              unique_eq_spec_unique, keys_map_entries, List.map_append]
            rfl
          have hu2 : unique_string_for_key name type_
              (dict_set popped (unique_string_for_key name old_type popped)
                old_value) ∉ dict_keys (dict_set popped
                  (unique_string_for_key name old_type popped) old_value) :=
            unique_string_for_key_not_mem _ _ _
          have hk2v : unique_string_for_key name type_
              (dict_set popped (unique_string_for_key name old_type popped)
                old_value) = e2.key := by
            rw [hf1m, unique_eq_spec_unique, keys_map_entries]
          have hndrest : (spec_keys rest).Nodup := by
            apply hD.sublist
            rw [hrest]
            exact spec_keys_eraseP_sublist _ _
          have hn1 : e1.key ∉ spec_keys rest := spec_unique_key_not_mem _ _ _
          have hn2 : e2.key ∉ spec_keys (rest ++ [e1]) :=
            spec_unique_key_not_mem _ _ _
          have hassoc : (rest ++ [e1]) ++ [e2] = rest ++ [e1, e2] :=
            List.append_assoc rest [e1] [e2]
          refine ⟨?_, ?_, ?_, ?_, ?_⟩
          · show dict_set (dict_set popped
                (unique_string_for_key name old_type popped) old_value)
              (unique_string_for_key name type_
                (dict_set popped (unique_string_for_key name old_type popped)
                  old_value)) value = _
            rw [dict_set_append _ _ _ hu2, hk2v, hf1m, ← hassoc,
              List.map_append _ (rest ++ [e1]) [e2]]
            rfl
          · show cs.ambiguous_names ++ [name] = ss.ambiguous ++ [name]
            rw [hB]
          · show (spec_keys (rest ++ [e1, e2])).Nodup
            have hstep1 : (spec_keys (rest ++ [e1])).Nodup := by
              rw [spec_keys, List.map_append]
              exact nodup_append_singleton _ _ hndrest hn1
            have hstep2 : (spec_keys ((rest ++ [e1]) ++ [e2])).Nodup := by
              rw [spec_keys, List.map_append]
              exact nodup_append_singleton _ _ hstep1 hn2
            exact hassoc ▸ hstep2
          · show (dict_keys removed').Nodup
            exact dict_pop_keys_nodup _ _ _ _ hE hp2
          · intro n
            show dict_find removed' n = _
            rw [dict_pop_find_nodup cs.removed_types name old_type removed'
              hE hp2 n]
            rw [← hassoc,
              find?_bind_append_synth _ e2 (spec_unique_key_ne_name _ _ _),
              find?_bind_append_synth _ e1 (spec_unique_key_ne_name _ _ _)]
            by_cases hn : n = name
            · subst hn
              rw [if_pos rfl]
              have hnone : rest.find? (fun x => x.key = n) = none := by
                rw [List.find?_eq_none]
                intro x hx
                simp only [decide_eq_true_eq]
                intro hxe
                apply hrest ▸ key_not_mem_eraseP ss.entries n hD
                exact hxe ▸ List.mem_map_of_mem _ hx
              rw [hnone]
              rfl
            · rw [if_neg hn, hC n]
              have hdisj : ∀ x : SpecEntry V,
                  decide (x.key = n) = true → decide (x.key = name) = false := by
                intro x hx
                simp only [decide_eq_true_eq] at hx
                simp only [decide_eq_false_iff_not]
                rw [hx]
                exact hn
              rw [hrest, find?_eraseP_of_disjoint _ _ ss.entries hdisj]
    · -- first occurrence of the name: spec clause 1
      rw [if_neg hcon] at hstep
      obtain rfl := (Option.some.inj hstep).symm
      have hnotmem : name ∉ spec_keys ss.entries := by
        rw [← hkeys_eq]
        intro hmem
        exact hcon ((dict_contains_iff _ _).mpr hmem)
      have hfind_none : ss.entries.find? (fun e => e.key = name) = none := by
        rw [List.find?_eq_none]
        intro x hx
        simp only [decide_eq_true_eq]
        intro hxe
        exact hnotmem (hxe ▸ List.mem_map_of_mem _ hx)
      have hspec : spec_resolver_step ss ((name, type_), value) =
          { ss with entries := ss.entries ++ [⟨name, name, type_, value⟩] } := by
        simp only [spec_resolver_step]
        rw [if_neg hambs, hfind_none]
      rw [hspec]
      have hnm_removed : name ∉ dict_keys cs.removed_types := by
        intro hmem
        obtain ⟨v, hv⟩ := dict_find_mem _ _ hmem
        rw [hC name, hfind_none] at hv
        cases hv
      refine ⟨?_, hB, ?_, ?_, ?_⟩
      · show dict_set cs.filtered name value = _
        rw [hA,
          dict_set_append _ _ _ (by rw [keys_map_entries]; exact hnotmem),
          List.map_append]
        rfl
      · show (spec_keys (ss.entries ++ [_])).Nodup
        rw [spec_keys, List.map_append]
        exact nodup_append_singleton _ _ hD hnotmem
      · show (dict_keys (dict_set cs.removed_types name type_)).Nodup
        rw [dict_set_append _ _ _ hnm_removed, dict_keys_append]
        exact nodup_append_singleton _ _ hE hnm_removed
      · intro n
        show dict_find (dict_set cs.removed_types name type_) n = _
        rw [dict_set_append _ _ _ hnm_removed, dict_find_append,
          find?_append_cases, hC n]
        rcases hf : ss.entries.find? (fun x => x.key = n) with _ | ex
        · simp only [hf]
          by_cases hn : name = n
          · subst hn
            rw [dict_find_cons, if_pos rfl,
              List.find?_cons_of_pos _ (by simp)]
            simp
          · rw [dict_find_cons, if_neg hn,
              List.find?_cons_of_neg _ (by simp [hn])]
            rfl
        · simp only [hf, Option.some_bind]
          have hexn : ex.key = n := by
            simpa using List.find?_some hf
          have hnn : name ≠ n := by
            intro h
            exact hnotmem (h ▸ hexn ▸
              List.mem_map_of_mem _ (List.mem_of_find?_eq_some hf))
          by_cases hb : ex.key = ex.name
          · rw [if_pos hb]
          · rw [if_neg hb, dict_find_cons, if_neg hnn]
            rfl

/-- The simulation, folded over the whole entry list. -/
theorem stringify_spec_fold {V : Type} :
    ∀ (l : List ((String × String) × V)) (cs : StringifyState V)
      (ss : SpecResolverState V), StringifyInv cs ss →
      ∀ cs', l.foldlM stringify_step cs = some cs' →
        StringifyInv cs' (l.foldl spec_resolver_step ss) := by
  intro l
  induction l with
  | nil =>
    intro cs ss hinv cs' h
    obtain rfl := Option.some.inj h
    exact hinv
  | cons e t ih =>
    intro cs ss hinv cs' h
    rw [List.foldlM_cons] at h
    rcases hstep : stringify_step cs e with _ | cs1
    · rw [hstep] at h
      cases h
    · rw [hstep] at h
      rw [List.foldl_cons]
      exact ih cs1 (spec_resolver_step ss e)
        (stringify_spec_step cs cs1 ss e hinv hstep) cs' h

/-!  ## Claim C3 -/

/-- C3 (amended): whenever `stringify_metadata_keys` completes without
raising, its output is exactly the mapping described by the spec's single
deterministic pass (first occurrence bare; first collision re-keys the old
and new entries as `name<type>`; later entries of an ambiguous name get
synthesized keys; brackets escalate until the key is free); the resolver
raises `KeyError` when an entry's name equals an already-synthesized
key. -/
theorem C3_resolver_matches_spec_when_it_completes {V : Type}
    (l : List ((String × String) × V)) (out : List (String × V))
    (hok : stringify_metadata_keys l = some out) :
    out = metadata_key_resolver_spec l := by
  rw [stringify_metadata_keys] at hok
  rcases hfold : l.foldlM stringify_step ⟨[], [], []⟩ with _ | st
  · rw [hfold] at hok
    cases hok
  · rw [hfold] at hok
    simp only [Option.map_some'] at hok
    obtain rfl := Option.some.inj hok
    have hinv0 : StringifyInv (⟨[], [], []⟩ : StringifyState V) ⟨[], []⟩ :=
      ⟨rfl, rfl, List.nodup_nil, List.nodup_nil, fun n => rfl⟩
    have hinv := stringify_spec_fold l _ _ hinv0 st hfold
    rw [metadata_key_resolver_spec]
    exact hinv.1

/-- C3 is refuted as stated: on a metadata block whose third entry's name
equals a key the resolver has already synthesized, the source resolver
raises `KeyError` and produces no output at all, while the pass the claim
describes has a well-defined answer. -/
theorem C3_counterexample_resolver_key_error :
    stringify_metadata_keys collidingMetadata = none ∧
    (metadata_key_resolver_spec collidingMetadata).length =
      collidingMetadata.length := by
  exact ⟨by rfl, by rfl⟩

/-- Witness for C3: on the source's own ambiguity test input the resolver
completes and its output is the spec pass's output. -/
theorem C3_witness :
    stringify_metadata_keys ambiguityMetadata =
      some [("acceleration<int>", 2), ("acceleration<<int>>", 3),
        ("acceleration<float>", 4), ("other", 5)] ∧
    [("acceleration<int>", (2 : Nat)), ("acceleration<<int>>", 3),
        ("acceleration<float>", 4), ("other", 5)] =
      metadata_key_resolver_spec ambiguityMetadata := by
  refine ⟨by rfl, ?_⟩
  exact C3_resolver_matches_spec_when_it_completes ambiguityMetadata _ (by rfl)

end PyVRS
